import Mathlib

/-!
Verification development for the word-weave crossword grid-filling engine.

The definitions below are a shallow embedding of the TypeScript core
(`crosswordFill` module): dictionary indexing, slot extraction, the
backtracking solver and the shape analyzer.  JavaScript strings holding a
single grid cell are modelled as `Option Char` (`none` for the empty string
`""`, `some c` for a one-character string, in particular `some '#'` for a
blocked cell); words are `List Char`; `Map`/`Set` objects are modelled as
insertion-ordered association lists with the same operation semantics.
Numbers are `Nat` (all source arithmetic on them is non-negative counting).
`Math.random`-driven shuffling is modelled by an injected oracle
`rand : Nat → Nat`, where `rand i` stands for `Math.floor(Math.random()*(i+1))`
in the Fisher–Yates iteration at index `i` (so the source guarantees
`rand i ≤ i`); the progress callback is an injected pure function.
-/

namespace WordWeave

/-- One grid cell: `none` is the empty string `""`, `some c` a one-character
string (`some '#'` at blocked cells). -/
abbrev Cell := Option Char

abbrev Grid := List (List Cell)

abbrev Word := List Char

abbrev Coord := Nat × Nat

inductive Dir
  | across
  | down
deriving DecidableEq, Repr

/-- Slot identity: the source uses the string `"A:r:c"` / `"D:r:c"`; the
encoding `(direction, row, col) ↦ string` is injective, so we keep the triple. -/
structure SlotId where
  dir : Dir
  row : Nat
  col : Nat
deriving DecidableEq, Repr

structure Slot where
  id : SlotId
  dir : Dir
  cells : List Coord
  length : Nat
deriving DecidableEq, Repr

/-! ### JS `Map`/`Set` models (insertion-ordered association lists) -/

abbrev AssignMap := List (SlotId × Word)

def mapHas (m : AssignMap) (k : SlotId) : Bool :=
  m.any (fun p => p.1 == k)

def mapGet (m : AssignMap) (k : SlotId) : Option Word :=
  (m.find? (fun p => p.1 == k)).map (·.2)

/-- `Map.set`: overwrite in place if the key is present, else append. -/
def mapSet (m : AssignMap) (k : SlotId) (v : Word) : AssignMap :=
  if mapHas m k then m.map (fun p => if p.1 == k then (k, v) else p)
  else m ++ [(k, v)]

/-- `Map.delete`: remove the entry with the key. -/
def mapDelete (m : AssignMap) (k : SlotId) : AssignMap :=
  m.filter (fun p => ¬ p.1 = k)

abbrev WordSet := List Word

def setHas (s : WordSet) (w : Word) : Bool := s.contains w

/-- `Set.add`: append if absent. -/
def setAdd (s : WordSet) (w : Word) : WordSet :=
  if setHas s w then s else s ++ [w]

/-- `Set.delete`: remove the element (a JS set holds it at most once). -/
def setDelete (s : WordSet) (w : Word) : WordSet :=
  s.filter (fun x => ¬ x = w)

/-! ### Dictionary normalization and indexing -/

def isUpperAlpha (c : Char) : Bool := 'A' ≤ c && c ≤ 'Z'

/-- `String.prototype.trim` on the character list (ASCII whitespace scope). -/
def trimChars (w : Word) : Word :=
  ((w.dropWhile Char.isWhitespace).reverse.dropWhile Char.isWhitespace).reverse

/-- `w.trim().toUpperCase()` (ASCII scope of `toUpperCase`). -/
def normalizeWord (w : Word) : Word := (trimChars w).map Char.toUpper

/-- `normalizeDictionary`: trim + uppercase each word, silently dropping words
that are empty after trimming or fail the `/^[A-Z]+$/` test. -/
def normalizeDictionary (words : List Word) : List Word :=
  words.filterMap (fun w =>
    let up := normalizeWord w
    if up.length = 0 then none
    else if up.all isUpperAlpha then some up else none)

abbrev LenIndex := List (Nat × List Word)

/-- Helper for `indexByLength`: push `w` onto the bucket for `k`
(`m.get(k)` + push, or `m.set(k, [w])`). -/
def bucketAppend (m : LenIndex) (k : Nat) (w : Word) : LenIndex :=
  if m.any (fun p => p.1 == k) then
    m.map (fun p => if p.1 == k then (p.1, p.2 ++ [w]) else p)
  else m ++ [(k, [w])]

/-- `indexByLength`: group words by length, preserving word order per bucket. -/
def indexByLength (words : List Word) : LenIndex :=
  words.foldl (fun m w => bucketAppend m w.length w) []

/-- `Map.get` on the length index. -/
def lenLookup (m : LenIndex) (k : Nat) : Option (List Word) :=
  (m.find? (fun p => p.1 == k)).map (·.2)

structure DictionaryIndex where
  normalizedWords : List Word
  wordsByLength : LenIndex
deriving Repr

def buildDictionaryIndex (dictionary : List Word) : DictionaryIndex :=
  let normalizedWords := normalizeDictionary dictionary
  let wordsByLength := indexByLength normalizedWords
  { normalizedWords, wordsByLength }

/-! ### Shape scanning -/

/-- `isRect`: every row has the width of the first row (vacuously true for
height 0, which callers reject beforehand). -/
def isRect (shape : List (List Bool)) : Bool :=
  match shape with
  | [] => true
  | row0 :: _ => shape.all (fun row => row.length == row0.length)

/-- Maximal-run scanner for one line of the shape, mirroring the source's
`while` loops: it emits `(start, runLength)` for every loop iteration, so a
blocked cell that does not directly terminate a run contributes a
`(pos, 0)` entry (the source then filters by `runLen >= minLen`).
The `inRun` flag tells whether we are inside a run begun at `start`. -/
def scanAux : Bool → Nat → Nat → List Bool → List (Nat × Nat)
  | false, _, _, [] => []
  | false, s, pos, false :: rest => (pos, 0) :: scanAux false s (pos + 1) rest
  | false, _, pos, true :: rest => scanAux true pos (pos + 1) rest
  | true, start, pos, [] => [(start, pos - start)]
  | true, start, pos, true :: rest => scanAux true start (pos + 1) rest
  | true, start, pos, false :: rest => (start, pos - start) :: scanAux false 0 (pos + 1) rest

def scanRuns (line : List Bool) : List (Nat × Nat) := scanAux false 0 0 line

def getColumn (shape : List (List Bool)) (c : Nat) : List Bool :=
  shape.map (fun row => row.getD c false)

def range (n : Nat) : List Nat := List.range n

/-- `extractSlots`: across slots row-major, then down slots column-major (the
nested push loops concatenate each line's qualifying runs in scan order). -/
def extractSlots (shape : List (List Bool)) (minLen : Nat) : List Slot :=
  let w := (shape.headD []).length
  let acrossSlots :=
    ((range shape.length).map (fun r =>
      (scanRuns (shape.getD r [])).filterMap (fun sr =>
        if sr.2 ≥ minLen then
          some { id := ⟨Dir.across, r, sr.1⟩, dir := Dir.across,
                 cells := (range sr.2).map (fun i => (r, sr.1 + i)),
                 length := sr.2 }
        else none))).flatten
  let downSlots :=
    ((range w).map (fun c =>
      (scanRuns (getColumn shape c)).filterMap (fun sr =>
        if sr.2 ≥ minLen then
          some { id := ⟨Dir.down, sr.1, c⟩, dir := Dir.down,
                 cells := (range sr.2).map (fun i => (sr.1 + i, c)),
                 length := sr.2 }
        else none))).flatten
  acrossSlots ++ downSlots

/-- `makeEmptyGrid`: `""` at open cells, `"#"` at blocked cells. -/
def makeEmptyGrid (shape : List (List Bool)) : Grid :=
  shape.map (fun row => row.map (fun cell => if cell then none else some '#'))

/-- `cloneGrid` copies row arrays; on grid values it is the identity. -/
def cloneGrid (grid : Grid) : Grid := grid.map (fun row => row)

/-- Read `grid[r][c]`.  The defaults are never consulted on in-range
coordinates (the only ones the source reaches through extracted slots). -/
def getCell (grid : Grid) (r c : Nat) : Cell :=
  (grid.getD r []).getD c (some '#')

/-- Write `grid[r][c] = v` (no-op when out of range, unreachable in context). -/
def setCell (grid : Grid) (r c : Nat) (v : Cell) : Grid :=
  grid.set r ((grid.getD r []).set c v)

/-! ### Word placement -/

structure Change where
  r : Nat
  c : Nat
  prev : Cell
deriving DecidableEq, Repr

/-- The cell-by-cell loop of `tryPlaceWord`.  The grid is threaded so that the
partial writes performed before an early `return null` are preserved, exactly
as the in-place mutation in the source.  `acc` holds the recorded changes in
reverse push order.  The `([], _ :: _)` word/cells mismatch case is
unreachable once the caller's length guard holds for a well-formed slot. -/
def placeLoop : Grid → List Coord → Word → List Change → Grid × Option (List Change)
  | grid, [], _, acc => (grid, some acc.reverse)
  | grid, _ :: _, [], _ => (grid, none)
  | grid, (r, c) :: cells, ch :: wrest, acc =>
    match getCell grid r c with
    | some e => if e == ch then placeLoop grid cells wrest acc else (grid, none)
    | none => placeLoop (setCell grid r c (some ch)) cells wrest (⟨r, c, none⟩ :: acc)

/-- `tryPlaceWord`: reject on length mismatch, else walk the slot's cells,
rejecting when a filled cell disagrees and writing (and recording) every
previously-empty cell.  Returns the possibly-mutated grid together with the
recorded changes (`none` = rejected). -/
def tryPlaceWord (grid : Grid) (slot : Slot) (word : Word) : Grid × Option (List Change) :=
  if word.length != slot.length then (grid, none)
  else placeLoop grid slot.cells word []

/-- `undoPlacement`: restore each recorded cell to its previous value. -/
def undoPlacement (grid : Grid) (changes : List Change) : Grid :=
  changes.foldl (fun g ch => setCell g ch.r ch.c ch.prev) grid

/-! ### Candidate computation and slot selection -/

def matchesConstraints : Word → List Cell → Bool
  | _, [] => true
  | [], some _ :: _ => false
  | [], none :: cs => matchesConstraints [] cs
  | _ :: ws, none :: cs => matchesConstraints ws cs
  | w :: ws, some want :: cs => w == want && matchesConstraints ws cs

def getCandidatesForSlot (slot : Slot) (grid : Grid) (dictByLen : LenIndex) : List Word :=
  let words := (lenLookup dictByLen slot.length).getD []
  let constraints := slot.cells.map (fun rc => getCell grid rc.1 rc.2)
  words.filter (fun w => matchesConstraints w constraints)

/-- The loop body of `pickNextSlot`, threading the current best
`(slot, candidates)`; a slot with an empty (raw or used-filtered) candidate
list aborts the whole selection with `none` (forward checking). -/
def pickAux (assignments : AssignMap) (grid : Grid) (dictByLen : LenIndex)
    (usedWords : WordSet) (allowReuseWords : Bool) :
    List Slot → Option (Slot × List Word) → Option (Slot × List Word)
  | [], best => best
  | slot :: rest, best =>
    if mapHas assignments slot.id then
      pickAux assignments grid dictByLen usedWords allowReuseWords rest best
    else
      let candidates := getCandidatesForSlot slot grid dictByLen
      if candidates.length == 0 then none
      else
        let filtered := if allowReuseWords then candidates
                        else candidates.filter (fun w => !setHas usedWords w)
        if filtered.length == 0 then none
        else
          match best with
          | none => pickAux assignments grid dictByLen usedWords allowReuseWords rest
              (some (slot, filtered))
          | some (bs, bc) =>
            if filtered.length < bc.length then
              pickAux assignments grid dictByLen usedWords allowReuseWords rest
                (some (slot, filtered))
            else
              pickAux assignments grid dictByLen usedWords allowReuseWords rest
                (some (bs, bc))

def pickNextSlot (slots : List Slot) (assignments : AssignMap) (grid : Grid)
    (dictByLen : LenIndex) (usedWords : WordSet) (allowReuseWords : Bool) :
    Option (Slot × List Word) :=
  pickAux assignments grid dictByLen usedWords allowReuseWords slots none

/-! ### Shuffling (Fisher–Yates over the injected random oracle) -/

def listSwap (l : List Word) (i j : Nat) : List Word :=
  let vi := l.getD i []
  let vj := l.getD j []
  (l.set i vj).set j vi

/-- The downward Fisher–Yates loop: iteration at index `i+1` swaps positions
`i+1` and `rand (i+1)`. -/
def fisherYatesAux (rand : Nat → Nat) : Nat → List Word → List Word
  | 0, a => a
  | i + 1, a => fisherYatesAux rand i (listSwap a (i + 1) (rand (i + 1)))

/-- `shuffled`: copy, then Fisher–Yates from index `length - 1` down to `1`. -/
def shuffled (rand : Nat → Nat) (l : List Word) : List Word :=
  fisherYatesAux rand (l.length - 1) l

/-! ### The backtracking solver -/

/-- The failure reasons of `fillCrossword`, with the data interpolated into the
source's message strings kept as payloads (all six strings are distinct). -/
inductive FailReason
  | emptyShape
  | nonRectangular
  | noValidSlots (minWordLength : Nat)
  | maxStepsExceeded (maxSteps : Nat)
  | cancelled
  | noSolutionFound (steps : Nat)
deriving DecidableEq, Repr

inductive FillOutcome
  | ok (grid : Grid) (assignments : AssignMap) (steps : Nat)
  | fail (reason : FailReason) (steps : Nat)
deriving DecidableEq, Repr

structure CrosswordFillOptions where
  minWordLength : Nat := 2
  allowReuseWords : Bool := false
  randomizeCandidates : Bool := true
  maxSteps : Nat := 2000000

def progressInterval : Nat := 100

/-- The solver's per-invocation configuration: the precomputed slots and
dictionary index, the resolved options, the random oracle and the progress
callback. -/
structure SearchCfg where
  slots : List Slot
  dictByLen : LenIndex
  allowReuseWords : Bool
  randomizeCandidates : Bool
  maxSteps : Nat
  rand : Nat → Nat
  onProgress : Option (Nat → Grid → Bool)

/-- The mutable state captured by the source's `backtrack` closure. -/
structure SearchState where
  grid : Grid
  assignments : AssignMap
  usedWords : WordSet
  steps : Nat
  maybeFailureReason : Option FailReason

/-- The candidate loop of `backtrack`: `recur` is the recursive call for the
next level.  Note that a rejected `tryPlaceWord` still carries its partial
grid writes into the next iteration (`continue` after in-place mutation), and
that on recursive failure the unwind deletes the assignment, unmarks usage
(only when reuse is disallowed) and undoes the recorded changes. -/
def tryWordsAux (recur : SearchState → Bool × SearchState) (allowReuseWords : Bool)
    (slot : Slot) : List Word → SearchState → Bool × SearchState
  | [], st => (false, st)
  | word :: rest, st =>
    if !allowReuseWords && setHas st.usedWords word then
      tryWordsAux recur allowReuseWords slot rest st
    else
      match tryPlaceWord st.grid slot word with
      | (grid1, none) => tryWordsAux recur allowReuseWords slot rest { st with grid := grid1 }
      | (grid1, some changes) =>
        let st1 := { st with
          grid := grid1,
          assignments := mapSet st.assignments slot.id word,
          usedWords := setAdd st.usedWords word }
        match recur st1 with
        | (true, st2) => (true, st2)
        | (false, st2) =>
          let st3 := { st2 with
            assignments := mapDelete st2.assignments slot.id,
            usedWords := if !allowReuseWords then setDelete st2.usedWords word
                         else st2.usedWords,
            grid := undoPlacement st2.grid changes }
          tryWordsAux recur allowReuseWords slot rest st3

/-- The recursive `backtrack` function.  `fuel` bounds the recursion depth;
each recursive call strictly grows the assignment map, so any fuel above
`slots.length` is never exhausted (the caller passes `slots.length + 1`). -/
def backtrack : Nat → SearchCfg → SearchState → Bool × SearchState
  | 0, _, st => (false, st)
  | fuel + 1, cfg, st =>
    let st := { st with steps := st.steps + 1 }
    if st.steps > cfg.maxSteps then
      (false, { st with maybeFailureReason := some (FailReason.maxStepsExceeded cfg.maxSteps) })
    else
      let cancelledNow :=
        match cfg.onProgress with
        | some cb => st.steps % progressInterval == 0 && !cb st.steps st.grid
        | none => false
      if cancelledNow then
        (false, { st with maybeFailureReason := some FailReason.cancelled })
      else if st.assignments.length == cfg.slots.length then
        (true, st)
      else
        match pickNextSlot cfg.slots st.assignments st.grid cfg.dictByLen
            st.usedWords cfg.allowReuseWords with
        | none => (false, st)
        | some (slot, candidates) =>
          let ordered := if cfg.randomizeCandidates then shuffled cfg.rand candidates
                         else candidates
          tryWordsAux (fun s => backtrack fuel cfg s) cfg.allowReuseWords slot ordered st

/-- `fillCrossword`: resolve options, build the dictionary index, validate the
shape, then run the backtracking search on a fresh working grid. -/
def fillCrossword (shape : List (List Bool)) (dictionary : List Word)
    (options : CrosswordFillOptions) (rand : Nat → Nat)
    (onProgress : Option (Nat → Grid → Bool)) : FillOutcome :=
  let minWordLength := options.minWordLength
  let index := buildDictionaryIndex dictionary
  if shape.length == 0 then FillOutcome.fail FailReason.emptyShape 0
  else if !isRect shape then FillOutcome.fail FailReason.nonRectangular 0
  else
    let slots := extractSlots shape minWordLength
    if slots.length == 0 then FillOutcome.fail (FailReason.noValidSlots minWordLength) 0
    else
      let cfg : SearchCfg :=
        { slots := slots, dictByLen := index.wordsByLength,
          allowReuseWords := options.allowReuseWords,
          randomizeCandidates := options.randomizeCandidates,
          maxSteps := options.maxSteps, rand := rand, onProgress := onProgress }
      let st0 : SearchState :=
        { grid := makeEmptyGrid shape, assignments := [], usedWords := [],
          steps := 0, maybeFailureReason := none }
      match backtrack (slots.length + 1) cfg st0 with
      | (true, st) => FillOutcome.ok (cloneGrid st.grid) st.assignments st.steps
      | (false, st) =>
        FillOutcome.fail (st.maybeFailureReason.getD (FailReason.noSolutionFound st.steps)) st.steps

/-! ### The shape analyzer -/

inductive IssueCode
  | empty_shape
  | non_rectangular
  | no_slots
  | orphan_cells
  | no_candidates_for_slot_length
  | not_enough_unique_words_for_length
  | disconnected_components
deriving DecidableEq, Repr

inductive Severity
  | error
  | warning
deriving DecidableEq, Repr

/-- The data interpolated into each issue's message string. -/
inductive IssueDetail
  | plain
  | noSlotsDetail (minWordLength : Nat)
  | orphanDetail (count : Nat) (minWordLength : Nat)
  | noCandidatesDetail (perLength : List (Nat × Nat))
  | notEnoughDetail (perLength : List (Nat × Nat × Nat))
  | disconnectedDetail (componentCount : Nat)
deriving DecidableEq, Repr

structure ShapeIssue where
  code : IssueCode
  severity : Severity
  detail : IssueDetail
deriving DecidableEq, Repr

structure ShapeAnalysis where
  isValid : Bool
  issues : List ShapeIssue
  slotCount : Nat
deriving DecidableEq, Repr

/-- `countSlotsByLength`: slot-count per length, first-seen length order. -/
def bumpCount (m : List (Nat × Nat)) (k : Nat) : List (Nat × Nat) :=
  if m.any (fun p => p.1 == k) then
    m.map (fun p => if p.1 == k then (p.1, p.2 + 1) else p)
  else m ++ [(k, 1)]

def countSlotsByLength (slots : List Slot) : List (Nat × Nat) :=
  slots.foldl (fun m s => bumpCount m s.length) []

/-- `countOrphanCells`: white cells covered by no extracted slot (the nested
counting loops count the cells passing the test, row-major). -/
def countOrphanCells (shape : List (List Bool)) (slots : List Slot) : Nat :=
  let covered := (slots.map (fun s => s.cells)).flatten
  (((range shape.length).map (fun r =>
    (range ((shape.getD r []).length)).filter (fun c =>
      (shape.getD r []).getD c false && !covered.contains (r, c)))).flatten).length

/-- The 4-neighbourhood; with `Nat` subtraction a truncated neighbour equals
the cell itself, which is already visited, matching the source's bounds
filter. -/
def neighborsOf (cur : Coord) : List Coord :=
  [(cur.1 - 1, cur.2), (cur.1 + 1, cur.2), (cur.1, cur.2 - 1), (cur.1, cur.2 + 1)]

def visitedAt (visited : List (List Bool)) (r c : Nat) : Bool :=
  (visited.getD r []).getD c false

def markVisited (visited : List (List Bool)) (r c : Nat) : List (List Bool) :=
  visited.set r ((visited.getD r []).set c true)

/-- The flood-fill work loop of `countConnectedComponents`.  Every pushed cell
is marked visited first, so each open cell is pushed at most once and a fuel
of `h*w + 1` is never exhausted; element order in the worklist does not
affect the visited set. -/
def floodLoop (shape : List (List Bool)) :
    Nat → List Coord → List (List Bool) → List (List Bool)
  | 0, _, visited => visited
  | _ + 1, [], visited => visited
  | fuel + 1, cur :: stack, visited =>
    let h := shape.length
    let w := (shape.headD []).length
    let nbrs := (neighborsOf cur).filter (fun n =>
      n.1 < h && n.2 < w && (shape.getD n.1 []).getD n.2 false && !visitedAt visited n.1 n.2)
    let visited1 := nbrs.foldl (fun v n => markVisited v n.1 n.2) visited
    floodLoop shape fuel (stack ++ nbrs) visited1

def countConnectedComponents (shape : List (List Bool)) : Nat :=
  let h := shape.length
  let w := (shape.headD []).length
  let start : List (List Bool) × Nat := (shape.map (fun row => row.map (fun _ => false)), 0)
  ((range h).foldl (fun acc r =>
    (range w).foldl (fun acc c =>
      if !(shape.getD r []).getD c false then acc
      else if visitedAt acc.1 r c then acc
      else (floodLoop shape (h * w + 1) [(r, c)] (markVisited acc.1 r c), acc.2 + 1)) acc)
    start).2

/-- Insertion sort by a numeric key (the source sorts by `length`; keys are
distinct there, so any sort agrees). -/
def insertByKey {α : Type} (key : α → Nat) (x : α) : List α → List α
  | [] => [x]
  | y :: ys => if key x ≤ key y then x :: y :: ys else y :: insertByKey key x ys

def sortByKey {α : Type} (key : α → Nat) : List α → List α
  | [] => []
  | x :: xs => insertByKey key x (sortByKey key xs)

/-- `analyzeCrosswordShape`: read-only diagnostics over a shape and dictionary
index. -/
def analyzeCrosswordShape (shape : List (List Bool)) (dictionaryIndex : DictionaryIndex)
    (minWordLength : Nat) (allowReuseWords : Bool) : ShapeAnalysis :=
  if shape.length == 0 then
    { isValid := false,
      issues := [⟨IssueCode.empty_shape, Severity.error, IssueDetail.plain⟩],
      slotCount := 0 }
  else if !isRect shape then
    { isValid := false,
      issues := [⟨IssueCode.non_rectangular, Severity.error, IssueDetail.plain⟩],
      slotCount := 0 }
  else
    let slots := extractSlots shape minWordLength
    let issues1 : List ShapeIssue :=
      if slots.length == 0 then
        [⟨IssueCode.no_slots, Severity.error, IssueDetail.noSlotsDetail minWordLength⟩]
      else []
    let orphanCellCount := countOrphanCells shape slots
    let issues2 := issues1 ++
      (if orphanCellCount > 0 then
        [⟨IssueCode.orphan_cells, Severity.error,
          IssueDetail.orphanDetail orphanCellCount minWordLength⟩]
       else [])
    let slotCountsByLength := countSlotsByLength slots
    let noCandidateLengths := slotCountsByLength.filterMap (fun p =>
      let wordCount := ((lenLookup dictionaryIndex.wordsByLength p.1).getD []).length
      if wordCount == 0 then some (p.1, p.2) else none)
    let notEnoughWordsLengths := slotCountsByLength.filterMap (fun p =>
      let wordCount := ((lenLookup dictionaryIndex.wordsByLength p.1).getD []).length
      if wordCount == 0 then none
      else if !allowReuseWords && wordCount < p.2 then some (p.1, p.2, wordCount)
      else none)
    let issues3 := issues2 ++
      (if noCandidateLengths.length > 0 then
        [⟨IssueCode.no_candidates_for_slot_length, Severity.error,
          IssueDetail.noCandidatesDetail (sortByKey (fun q => q.1) noCandidateLengths)⟩]
       else [])
    let issues4 := issues3 ++
      (if notEnoughWordsLengths.length > 0 then
        [⟨IssueCode.not_enough_unique_words_for_length, Severity.error,
          IssueDetail.notEnoughDetail (sortByKey (fun q => q.1) notEnoughWordsLengths)⟩]
       else [])
    let componentCount := countConnectedComponents shape
    let issues5 := issues4 ++
      (if componentCount > 1 then
        [⟨IssueCode.disconnected_components, Severity.warning,
          IssueDetail.disconnectedDetail componentCount⟩]
       else [])
    { isValid := issues5.all (fun i => i.severity != Severity.error),
      issues := issues5,
      slotCount := slots.length }

/-! ### Heap-passing model of the mutation structure

JavaScript arrays are heap objects passed by reference; to state the
frame/effect claim (the solver mutates only the working grid it allocated,
never the caller's shape matrix or dictionary array) we re-run the same
source functions over an explicit heap.  A heap cell is one JS array: a grid
row (`string[]`), the dictionary (`string[]` of words), or a shape row
(`boolean[]`); references are heap indices, and `grid[r][c] = v` becomes a
store update at the row's reference.  Strings themselves are immutable in JS
and stay values. -/

inductive HCell
  | strRow (cells : List Cell)
  | wordArr (ws : List Word)
  | boolRow (bs : List Bool)
deriving DecidableEq, Repr

abbrev Heap := List HCell

/-- Allocate a fresh array: append, return its reference. -/
def halloc (h : Heap) (c : HCell) : Heap × Nat := (h ++ [c], h.length)

def readBoolRow (h : Heap) (ref : Nat) : List Bool :=
  match h.getD ref (HCell.boolRow []) with
  | HCell.boolRow bs => bs
  | _ => []

def readStrRow (h : Heap) (ref : Nat) : List Cell :=
  match h.getD ref (HCell.strRow []) with
  | HCell.strRow cs => cs
  | _ => []

def readWordArr (h : Heap) (ref : Nat) : List Word :=
  match h.getD ref (HCell.wordArr []) with
  | HCell.wordArr ws => ws
  | _ => []

def readShapeH (h : Heap) (shapeRefs : List Nat) : List (List Bool) :=
  shapeRefs.map (readBoolRow h)

def readGridH (h : Heap) (gridRefs : List Nat) : Grid :=
  gridRefs.map (readStrRow h)

/-- `grid[r][c] = v` through the row reference. -/
def writeCellH (h : Heap) (gridRefs : List Nat) (r c : Nat) (v : Cell) : Heap :=
  let ref := gridRefs.getD r 0
  h.set ref (HCell.strRow ((readStrRow h ref).set c v))

/-- `makeEmptyGrid` allocates one fresh row array per shape row
(`shape.map(row => row.map(...))`). -/
def makeEmptyGridH (h : Heap) (shapeRefs : List Nat) : Heap × List Nat :=
  shapeRefs.foldl (fun (acc : Heap × List Nat) sref =>
    let row := (readBoolRow acc.1 sref).map (fun cell => if cell then none else some '#')
    let al := halloc acc.1 (HCell.strRow row)
    (al.1, acc.2 ++ [al.2])) (h, [])

/-- Heap version of the `tryPlaceWord` loop. -/
def placeLoopH (gridRefs : List Nat) :
    Heap → List Coord → Word → List Change → Heap × Option (List Change)
  | h, [], _, acc => (h, some acc.reverse)
  | h, _ :: _, [], _ => (h, none)
  | h, (r, c) :: cells, ch :: wrest, acc =>
    match (readStrRow h (gridRefs.getD r 0)).getD c (some '#') with
    | some e => if e == ch then placeLoopH gridRefs h cells wrest acc else (h, none)
    | none => placeLoopH gridRefs (writeCellH h gridRefs r c (some ch)) cells wrest
        (⟨r, c, none⟩ :: acc)

def tryPlaceWordH (h : Heap) (gridRefs : List Nat) (slot : Slot) (word : Word) :
    Heap × Option (List Change) :=
  if word.length != slot.length then (h, none)
  else placeLoopH gridRefs h slot.cells word []

def undoPlacementH (h : Heap) (gridRefs : List Nat) (changes : List Change) : Heap :=
  changes.foldl (fun h ch => writeCellH h gridRefs ch.r ch.c ch.prev) h

structure HSearchState where
  heap : Heap
  assignments : AssignMap
  usedWords : WordSet
  steps : Nat
  maybeFailureReason : Option FailReason

/-- Heap version of the candidate loop. -/
def tryWordsAuxH (recur : HSearchState → Bool × HSearchState) (allowReuseWords : Bool)
    (gridRefs : List Nat) (slot : Slot) : List Word → HSearchState → Bool × HSearchState
  | [], st => (false, st)
  | word :: rest, st =>
    if !allowReuseWords && setHas st.usedWords word then
      tryWordsAuxH recur allowReuseWords gridRefs slot rest st
    else
      match tryPlaceWordH st.heap gridRefs slot word with
      | (heap1, none) =>
        tryWordsAuxH recur allowReuseWords gridRefs slot rest { st with heap := heap1 }
      | (heap1, some changes) =>
        let st1 := { st with
          heap := heap1,
          assignments := mapSet st.assignments slot.id word,
          usedWords := setAdd st.usedWords word }
        match recur st1 with
        | (true, st2) => (true, st2)
        | (false, st2) =>
          let st3 := { st2 with
            assignments := mapDelete st2.assignments slot.id,
            usedWords := if !allowReuseWords then setDelete st2.usedWords word
                         else st2.usedWords,
            heap := undoPlacementH st2.heap gridRefs changes }
          tryWordsAuxH recur allowReuseWords gridRefs slot rest st3

/-- Heap version of `backtrack`; candidate computation and the progress
callback read the live grid through the heap. -/
def backtrackH (gridRefs : List Nat) : Nat → SearchCfg → HSearchState → Bool × HSearchState
  | 0, _, st => (false, st)
  | fuel + 1, cfg, st =>
    let st := { st with steps := st.steps + 1 }
    if st.steps > cfg.maxSteps then
      (false, { st with maybeFailureReason := some (FailReason.maxStepsExceeded cfg.maxSteps) })
    else
      let cancelledNow :=
        match cfg.onProgress with
        | some cb => st.steps % progressInterval == 0 && !cb st.steps (readGridH st.heap gridRefs)
        | none => false
      if cancelledNow then
        (false, { st with maybeFailureReason := some FailReason.cancelled })
      else if st.assignments.length == cfg.slots.length then
        (true, st)
      else
        match pickNextSlot cfg.slots st.assignments (readGridH st.heap gridRefs) cfg.dictByLen
            st.usedWords cfg.allowReuseWords with
        | none => (false, st)
        | some (slot, candidates) =>
          let ordered := if cfg.randomizeCandidates then shuffled cfg.rand candidates
                         else candidates
          tryWordsAuxH (fun s => backtrackH gridRefs fuel cfg s) cfg.allowReuseWords gridRefs
            slot ordered st

/-- Heap version of `fillCrossword`: the shape rows live at `shapeRefs`, the
dictionary array at `dictRef`; the returned heap is the caller's memory after
the solve (the outcome's grid is the value snapshot produced by `cloneGrid`). -/
def fillCrosswordH (h0 : Heap) (shapeRefs : List Nat) (dictRef : Nat)
    (options : CrosswordFillOptions) (rand : Nat → Nat)
    (onProgress : Option (Nat → Grid → Bool)) : FillOutcome × Heap :=
  let minWordLength := options.minWordLength
  let shape := readShapeH h0 shapeRefs
  let index := buildDictionaryIndex (readWordArr h0 dictRef)
  if shape.length == 0 then (FillOutcome.fail FailReason.emptyShape 0, h0)
  else if !isRect shape then (FillOutcome.fail FailReason.nonRectangular 0, h0)
  else
    let slots := extractSlots shape minWordLength
    if slots.length == 0 then (FillOutcome.fail (FailReason.noValidSlots minWordLength) 0, h0)
    else
      let cfg : SearchCfg :=
        { slots := slots, dictByLen := index.wordsByLength,
          allowReuseWords := options.allowReuseWords,
          randomizeCandidates := options.randomizeCandidates,
          maxSteps := options.maxSteps, rand := rand, onProgress := onProgress }
      let mk := makeEmptyGridH h0 shapeRefs
      let st0 : HSearchState :=
        { heap := mk.1, assignments := [], usedWords := [],
          steps := 0, maybeFailureReason := none }
      match backtrackH mk.2 (slots.length + 1) cfg st0 with
      | (true, st) => (FillOutcome.ok (cloneGrid (readGridH st.heap mk.2)) st.assignments st.steps,
          st.heap)
      | (false, st) =>
        (FillOutcome.fail (st.maybeFailureReason.getD (FailReason.noSolutionFound st.steps))
          st.steps, st.heap)

/-- Heap version of the analyzer: it only reads, so it returns its heap. -/
def analyzeCrosswordShapeH (h0 : Heap) (shapeRefs : List Nat) (dictRef : Nat)
    (minWordLength : Nat) (allowReuseWords : Bool) : ShapeAnalysis × Heap :=
  (analyzeCrosswordShape (readShapeH h0 shapeRefs)
    (buildDictionaryIndex (readWordArr h0 dictRef)) minWordLength allowReuseWords, h0)

/-! ### Specification predicates -/

/-- The grid holds `w` along `cells`, letter by letter. -/
def placedAt (g : Grid) (cells : List Coord) (w : Word) : Prop :=
  List.Forall₂ (fun rc ch => getCell g rc.1 rc.2 = some ch) cells w

/-- Well-formedness of an extracted slot with respect to its shape. -/
structure SlotWF (shape : List (List Bool)) (s : Slot) : Prop where
  len_cells : s.cells.length = s.length
  cells_in : ∀ rc ∈ s.cells, rc.1 < shape.length ∧ rc.2 < (shape.getD rc.1 []).length ∧
      (shape.getD rc.1 []).getD rc.2 false = true
  cells_nodup : s.cells.Nodup

/-- Facts about a solver configuration that `fillCrossword` establishes. -/
structure CfgWF (shape : List (List Bool)) (cfg : SearchCfg) : Prop where
  slots_wf : ∀ s ∈ cfg.slots, SlotWF shape s
  dict_len : ∀ n w, w ∈ (lenLookup cfg.dictByLen n).getD [] → w.length = n
  rand_le : ∀ i, cfg.rand i ≤ i

/-- The search invariant carried through `backtrack`. -/
structure Inv (shape : List (List Bool)) (cfg : SearchCfg) (st : SearchState) : Prop where
  dims_len : st.grid.length = shape.length
  dims_row : ∀ r, (st.grid.getD r []).length = (shape.getD r []).length
  keys_nodup : (st.assignments.map (fun p => p.1)).Nodup
  entries : ∀ p ∈ st.assignments, ∃ s, s ∈ cfg.slots ∧ s.id = p.1 ∧
      p.2 ∈ (lenLookup cfg.dictByLen s.length).getD [] ∧ placedAt st.grid s.cells p.2
  blocked : ∀ r c, r < shape.length → c < (shape.getD r []).length →
      (shape.getD r []).getD c false = false → getCell st.grid r c = some '#'
  uncovered : ∀ r c, r < shape.length → c < (shape.getD r []).length →
      (shape.getD r []).getD c false = true →
      (∀ s ∈ cfg.slots, (r, c) ∉ s.cells) → getCell st.grid r c = none
  used_ok : cfg.allowReuseWords = false →
      (st.assignments.map (fun p => p.2)).Nodup ∧
      ∀ w, setHas st.usedWords w = true ↔ w ∈ st.assignments.map (fun p => p.2)

/-- On failure `backtrack` hands back its entry state's grid, assignments and
(when reuse is disallowed) word set, with only the step counter and failure
reason updated. -/
def SameCore (ar : Bool) (st st' : SearchState) : Prop :=
  st'.grid = st.grid ∧ st'.assignments = st.assignments ∧
  (ar = false → st'.usedWords = st.usedWords)

def BacktrackSpec (shape : List (List Bool)) (cfg : SearchCfg) (st : SearchState)
    (res : Bool × SearchState) : Prop :=
  (res.1 = false → SameCore cfg.allowReuseWords st res.2) ∧
  (res.1 = true → Inv shape cfg res.2 ∧ res.2.assignments.length = cfg.slots.length)

/-- What `pickNextSlot` guarantees about a returned slot and candidate list. -/
def PickedOK (allSlots : List Slot) (assignments : AssignMap) (grid : Grid)
    (dictByLen : LenIndex) (used : WordSet) (ar : Bool) (slot : Slot)
    (cands : List Word) : Prop :=
  slot ∈ allSlots ∧ mapHas assignments slot.id = false ∧ cands ≠ [] ∧
  ∀ w ∈ cands, w ∈ (lenLookup dictByLen slot.length).getD [] ∧
    matchesConstraints w (slot.cells.map (fun rc => getCell grid rc.1 rc.2)) = true ∧
    (ar = false → setHas used w = false)

/-- Heaps agreeing on every reference the caller allocated. -/
def AgreesBelow (h0 h : Heap) : Prop :=
  ∀ i, i < h0.length → h.get? i = h0.get? i

/-- The heap evolves by writing only references in `refs`. -/
def WritesOnly (refs : List Nat) (h h' : Heap) : Prop :=
  ∀ i, i ∉ refs → h'.get? i = h.get? i

/-! ### Concrete instances used by witnesses and counterexamples -/

def zeroRand : Nat → Nat := fun _ => 0

def identRand : Nat → Nat := fun i => i

def refuseCb : Nat → Grid → Bool := fun _ _ => false

def exOptsNoRand : CrosswordFillOptions := { randomizeCandidates := false }

/-- 2×2 all-open shape; fills to the word square AB / CD. -/
def exShape2x2 : List (List Bool) := [[true, true], [true, true]]

def exDictSquare : List Word := [['A', 'B'], ['C', 'D'], ['A', 'C'], ['B', 'D']]

/-- A shape whose cell (2,2) is an open orphan (covered by no slot). -/
def exShapeOrphan : List (List Bool) :=
  [[true, true, false], [false, false, false], [false, false, true]]

/-- Plus-shaped 3×3: one across slot (row 1) and one down slot (column 1). -/
def exShapePlus : List (List Bool) :=
  [[false, true, false], [true, true, true], [false, true, false]]

/-- The extracted down slot `D:0:1` of `exShapePlus`. -/
def exSlotDown : Slot :=
  { id := ⟨Dir.down, 0, 1⟩, dir := Dir.down, cells := [(0, 1), (1, 1), (2, 1)], length := 3 }

/-- The working grid of `exShapePlus` after placing `ABC` in the across slot. -/
def exGridMid : Grid :=
  [[some '#', none, some '#'], [some 'A', some 'B', some 'C'], [some '#', none, some '#']]

/-- 1×2 open row: a single across slot. -/
def exShapeRow2 : List (List Bool) := [[true, true]]

/-- All-blocked 1×1 shape. -/
def exShapeBlocked : List (List Bool) := [[false]]

/-- 1×17 row carrying six independent across slots of length 2. -/
def exShapeSix : List (List Bool) :=
  [[true, true, false, true, true, false, true, true, false, true, true, false,
    true, true, false, true, true]]

def exDictFive : List Word :=
  [['A', 'B'], ['C', 'D'], ['E', 'F'], ['G', 'H'], ['I', 'J']]

/-- Two disjoint across slots of length 2 (rows 0 and 2). -/
def exShapeTwoRows : List (List Bool) := [[true, true], [false, false], [true, true]]

/-- A dictionary with a duplicated word. -/
def exDictDup : List Word := [['A', 'B'], ['A', 'B']]

/-- The grid `fillCrossword` produces on `exShape2x2` with `exDictSquare`. -/
def exGridSquare : Grid := [[some 'A', some 'B'], [some 'C', some 'D']]

/-- The assignment map produced alongside `exGridSquare` (insertion order). -/
def exAssignSquare : AssignMap :=
  [(⟨Dir.across, 0, 0⟩, ['A', 'B']), (⟨Dir.down, 0, 0⟩, ['A', 'C']),
   (⟨Dir.across, 1, 0⟩, ['C', 'D']), (⟨Dir.down, 0, 1⟩, ['B', 'D'])]

/-- The grid `fillCrossword` produces on `exShapeOrphan` with word `AB`: the
orphan open cell (2,2) stays empty. -/
def exGridOrphan : Grid :=
  [[some 'A', some 'B', some '#'], [some '#', some '#', some '#'],
   [some '#', some '#', none]]

/-- An example caller heap: three shape rows of `exShapePlus` and a dictionary. -/
def exHeap : Heap :=
  [HCell.boolRow [false, true, false], HCell.boolRow [true, true, true],
   HCell.boolRow [false, true, false], HCell.wordArr [['A', 'B', 'C'], ['X', 'B', 'Z']]]

/-! ## Lemmas: list access helpers -/

theorem getD_set_self {α : Type} (l : List α) (n : Nat) (d v : α) (h : n < l.length) :
    (l.set n v).getD n d = v := by
  induction l generalizing n with
  | nil => simp at h
  | cons x xs ih =>
    cases n with
    | zero => rfl
    | succ m => exact ih m (Nat.lt_of_succ_lt_succ h)

theorem getD_set_ne {α : Type} (l : List α) (n m : Nat) (d v : α) (h : n ≠ m) :
    (l.set n v).getD m d = l.getD m d := by
  induction l generalizing n m with
  | nil => rfl
  | cons x xs ih =>
    cases n with
    | zero =>
      cases m with
      | zero => exact absurd rfl h
      | succ m2 => rfl
    | succ n2 =>
      cases m with
      | zero => rfl
      | succ m2 => exact ih n2 m2 (fun hh => h (by rw [hh]))

theorem getD_of_ge {α : Type} (l : List α) (n : Nat) (d : α) (h : l.length ≤ n) :
    l.getD n d = d := by
  induction l generalizing n with
  | nil => cases n <;> rfl
  | cons x xs ih =>
    cases n with
    | zero => simp at h
    | succ m => exact ih m (Nat.le_of_succ_le_succ h)

theorem set_of_ge {α : Type} (l : List α) (n : Nat) (v : α) (h : l.length ≤ n) :
    l.set n v = l := by
  induction l generalizing n with
  | nil => rfl
  | cons x xs ih =>
    cases n with
    | zero => simp at h
    | succ m => simpa using ih m (Nat.le_of_succ_le_succ h)

theorem list_ext_getD {α : Type} (d : α) (l1 l2 : List α) (hlen : l1.length = l2.length)
    (h : ∀ n, n < l1.length → l1.getD n d = l2.getD n d) : l1 = l2 := by
  induction l1 generalizing l2 with
  | nil =>
    cases l2 with
    | nil => rfl
    | cons y ys => simp at hlen
  | cons x xs ih =>
    cases l2 with
    | nil => simp at hlen
    | cons y ys =>
      have hx : x = y := h 0 (Nat.succ_pos _)
      have hxs : xs = ys := by
        apply ih ys (by simpa using hlen)
        intro n hn
        exact h (n + 1) (Nat.succ_lt_succ hn)
      rw [hx, hxs]

/-! ## Lemmas: grid cells -/

theorem setCell_length (g : Grid) (r c : Nat) (v : Cell) :
    (setCell g r c v).length = g.length := by
  simp [setCell]

theorem setCell_row_length (g : Grid) (r c : Nat) (v : Cell) (r' : Nat) :
    ((setCell g r c v).getD r' []).length = ((g.getD r' []).length) := by
  unfold setCell
  by_cases h : r = r'
  · subst h
    rcases Nat.lt_or_ge r g.length with hr | hr
    · rw [getD_set_self _ _ _ _ hr, List.length_set]
    · rw [set_of_ge _ _ _ hr]
  · rw [getD_set_ne _ _ _ _ _ h]

theorem getCell_setCell_self (g : Grid) (r c : Nat) (v : Cell)
    (hr : r < g.length) (hc : c < (g.getD r []).length) :
    getCell (setCell g r c v) r c = v := by
  unfold getCell setCell
  rw [getD_set_self _ _ _ _ hr, getD_set_self _ _ _ _ hc]

theorem getCell_setCell_ne (g : Grid) (r c : Nat) (v : Cell) (r' c' : Nat)
    (h : ¬ (r' = r ∧ c' = c)) :
    getCell (setCell g r c v) r' c' = getCell g r' c' := by
  unfold getCell setCell
  by_cases hr : r = r'
  · subst hr
    have hc : c ≠ c' := fun hc => h ⟨rfl, hc.symm⟩
    rcases Nat.lt_or_ge r g.length with hlt | hge
    · rw [getD_set_self _ _ _ _ hlt, getD_set_ne _ _ _ _ _ hc]
    · rw [set_of_ge _ _ _ hge]
  · rw [getD_set_ne _ _ _ _ _ hr]

theorem grid_ext (g1 g2 : Grid) (hlen : g1.length = g2.length)
    (hrow : ∀ r, r < g1.length → (g1.getD r []).length = (g2.getD r []).length)
    (hcell : ∀ r c, r < g1.length → c < (g1.getD r []).length →
      getCell g1 r c = getCell g2 r c) : g1 = g2 := by
  apply list_ext_getD ([] : List Cell) g1 g2 hlen
  intro r hr
  apply list_ext_getD (some '#') _ _ (hrow r hr)
  intro c hc
  exact hcell r c hr hc

/-! ## Lemmas: map/set models -/

theorem mapHas_false_iff (m : AssignMap) (k : SlotId) :
    mapHas m k = false ↔ ∀ p ∈ m, p.1 ≠ k := by
  simp [mapHas, List.any_eq_false]

theorem mapSet_append (m : AssignMap) (k : SlotId) (v : Word) (h : mapHas m k = false) :
    mapSet m k v = m ++ [(k, v)] := by
  simp [mapSet, h]

theorem mapDelete_append_self (m : AssignMap) (k : SlotId) (v : Word)
    (h : mapHas m k = false) :
    mapDelete (m ++ [(k, v)]) k = m := by
  rw [mapHas_false_iff] at h
  unfold mapDelete
  rw [List.filter_append]
  have h1 : m.filter (fun p => ¬ p.1 = k) = m :=
    List.filter_eq_self.2 (fun p hp => by simpa using h p hp)
  have h2 : List.filter (fun p => decide ¬ p.1 = k) [(k, v)] = [] := by
    simp
  rw [h1, h2, List.append_nil]

theorem setHas_false_iff (s : WordSet) (w : Word) :
    setHas s w = false ↔ w ∉ s := by
  simp [setHas]

theorem setAdd_append (s : WordSet) (w : Word) (h : w ∉ s) :
    setAdd s w = s ++ [w] := by
  simp [setAdd, setHas, h]

theorem setDelete_append_self (s : WordSet) (w : Word) (h : w ∉ s) :
    setDelete (s ++ [w]) w = s := by
  unfold setDelete
  rw [List.filter_append]
  have h1 : s.filter (fun x => ¬ x = w) = s :=
    List.filter_eq_self.2 (fun x hx => by
      simp only [decide_not, Bool.not_eq_true', decide_eq_false_iff_not]
      exact fun hh => h (hh ▸ hx))
  have h2 : List.filter (fun x => decide ¬ x = w) [w] = [] := by simp
  rw [h1, h2, List.append_nil]

theorem setHas_iff (s : WordSet) (w : Word) : setHas s w = true ↔ w ∈ s := by
  simp [setHas]

theorem setHas_setAdd (s : WordSet) (w x : Word) :
    setHas (setAdd s w) x = true ↔ (x ∈ s ∨ x = w) := by
  unfold setAdd
  by_cases h : setHas s w = true
  · rw [if_pos h, setHas_iff]
    rw [setHas_iff] at h
    constructor
    · exact fun hx => Or.inl hx
    · rintro (hx | hx)
      · exact hx
      · exact hx ▸ h
  · rw [if_neg h, setHas_iff]
    simp

theorem mapGet_eq_some_mem (m : AssignMap) (k : SlotId) (w : Word)
    (h : mapGet m k = some w) : (k, w) ∈ m := by
  induction m with
  | nil => simp [mapGet] at h
  | cons p ps ih =>
    unfold mapGet at h
    by_cases hp : (p.1 == k) = true
    · simp only [List.find?_cons, hp] at h
      simp only [Option.map_some', Option.some_inj] at h
      have : p = (k, w) := by
        rcases p with ⟨pk, pv⟩
        simp only [beq_iff_eq] at hp
        simp only at h
        simp [hp, ← h]
      exact this ▸ List.mem_cons_self _ _
    · have hp' : (p.1 == k) = false := by simpa using hp
      simp only [List.find?_cons, hp'] at h
      exact List.mem_cons_of_mem _ (ih h)

theorem mapGet_isSome_of_key (m : AssignMap) (k : SlotId)
    (h : k ∈ m.map (fun p => p.1)) : ∃ w, mapGet m k = some w := by
  induction m with
  | nil => simp at h
  | cons p ps ih =>
    unfold mapGet
    by_cases hp : (p.1 == k) = true
    · simp only [List.find?_cons, hp]
      exact ⟨p.2, rfl⟩
    · have hp' : (p.1 == k) = false := by simpa using hp
      simp only [List.find?_cons, hp']
      have : k ∈ ps.map (fun p => p.1) := by
        simp only [List.map_cons, List.mem_cons] at h
        rcases h with h | h
        · exact absurd (by simp [h]) hp
        · exact h
      exact ih this

/-! ## Lemmas: dictionary normalization and indexing -/

theorem mem_normalizeDictionary (d : List Word) (w : Word) (h : w ∈ normalizeDictionary d) :
    w ≠ [] ∧ w.all isUpperAlpha = true := by
  unfold normalizeDictionary at h
  rw [List.mem_filterMap] at h
  rcases h with ⟨x, _, hx⟩
  by_cases h0 : (normalizeWord x).length = 0
  · simp [h0] at hx
  · rw [if_neg h0] at hx
    by_cases h1 : (normalizeWord x).all isUpperAlpha
    · rw [if_pos h1] at hx
      simp only [Option.some_inj] at hx
      subst hx
      exact ⟨fun hnil => h0 (by rw [hnil]; rfl), h1⟩
    · simp [h1] at hx

theorem lenLookup_bucketAppend (m : LenIndex) (k0 : Nat) (x : Word) (k : Nat) (w : Word)
    (h : w ∈ (lenLookup (bucketAppend m k0 x) k).getD []) :
    w ∈ (lenLookup m k).getD [] ∨ (w = x ∧ k = k0) := by
  unfold bucketAppend at h
  by_cases hmem : (m.any (fun p => p.1 == k0)) = true
  · rw [if_pos hmem] at h
    clear hmem
    unfold lenLookup at h ⊢
    induction m with
    | nil => simp at h
    | cons p ps ih =>
      have hfst : ((if (p.1 == k0) = true then (p.1, p.2 ++ [x]) else p) : Nat × List Word).1
          = p.1 := by
        split <;> rfl
      by_cases hp : (p.1 == k) = true
      · simp only [List.map_cons, List.find?_cons, hfst, hp] at h
        simp only [List.find?_cons, hp]
        by_cases hk : (p.1 == k0) = true
        · simp only [if_pos hk] at h
          simp only [Option.map_some', Option.getD_some] at h ⊢
          rcases List.mem_append.1 h with h1 | h1
          · exact Or.inl h1
          · right
            refine ⟨by simpa using h1, ?_⟩
            have e1 : p.1 = k := by simpa using hp
            have e2 : p.1 = k0 := by simpa using hk
            rw [← e1, e2]
        · simp only [if_neg hk] at h
          simp only [Option.map_some', Option.getD_some] at h ⊢
          exact Or.inl h
      · have hp' : (p.1 == k) = false := by simpa using hp
        simp only [List.map_cons, List.find?_cons, hfst, hp'] at h
        simp only [List.find?_cons, hp']
        exact ih h
  · rw [if_neg hmem] at h
    unfold lenLookup at h ⊢
    rw [List.find?_append] at h
    rcases hfind : m.find? (fun p => p.1 == k) with _ | q
    · rw [hfind] at h
      simp only [Option.none_or] at h
      by_cases hk : (k0 == k) = true
      · simp only [List.find?_cons, hk] at h
        simp only [Option.map_some', Option.getD_some, List.mem_singleton] at h
        right
        exact ⟨h, (beq_iff_eq.1 hk).symm⟩
      · have hk' : (k0 == k) = false := by simpa using hk
        simp only [List.find?_cons, hk'] at h
        simp at h
    · rw [hfind] at h
      simp only [Option.or_some] at h
      rw [hfind]
      exact Or.inl h

theorem lenLookup_indexByLength (ws : List Word) (k : Nat) (w : Word)
    (h : w ∈ (lenLookup (indexByLength ws) k).getD []) :
    w ∈ ws ∧ w.length = k := by
  unfold indexByLength at h
  suffices haux : ∀ (l : List Word) (m : LenIndex),
      (∀ k' w', w' ∈ (lenLookup m k').getD [] → w' ∈ ws ∧ w'.length = k') →
      (∀ w' ∈ l, w' ∈ ws) →
      ∀ k' w', w' ∈ (lenLookup (l.foldl (fun m w => bucketAppend m w.length w) m) k').getD [] →
        w' ∈ ws ∧ w'.length = k' by
    apply haux ws [] _ (fun _ h => h) k w h
    intro k' w' hw'
    simp [lenLookup] at hw'
  intro l
  induction l with
  | nil => intro m hm _ k' w' hw'; exact hm k' w' hw'
  | cons x xs ih =>
    intro m hm hl k' w' hw'
    refine ih (bucketAppend m x.length x) ?_ (fun w'' hw'' => hl w'' (List.mem_cons_of_mem _ hw'')) k' w' hw'
    intro k2 w2 hw2
    rcases lenLookup_bucketAppend m x.length x k2 w2 hw2 with h1 | ⟨h1, h2⟩
    · exact hm k2 w2 h1
    · subst h1; subst h2
      exact ⟨hl w2 (List.mem_cons_self _ _), rfl⟩

/-! ## Lemmas: slot extraction well-formedness -/

theorem getD_true_lt (l : List Bool) (n : Nat) (h : l.getD n false = true) : n < l.length := by
  by_contra hge
  rw [getD_of_ge l n false (Nat.le_of_not_lt hge)] at h
  exact Bool.false_ne_true h

theorem getD_map_lt {α β : Type} (l : List α) (f : α → β) (n : Nat) (d : β) (d' : α)
    (h : n < l.length) : (l.map f).getD n d = f (l.getD n d') := by
  induction l generalizing n with
  | nil => simp at h
  | cons x xs ih =>
    cases n with
    | zero => rfl
    | succ m => exact ih m (Nat.lt_of_succ_lt_succ h)

theorem scanAux_spec (line : List Bool) :
    ∀ (rest : List Bool) (pos : Nat) (mode : Bool) (start : Nat),
      rest = line.drop pos → pos ≤ line.length →
      (mode = true → start ≤ pos ∧ ∀ k, start ≤ k → k < pos → line.getD k false = true) →
      ∀ st len, (st, len) ∈ scanAux mode start pos rest →
        st + len ≤ line.length ∧ ∀ k, k < len → line.getD (st + k) false = true := by
  intro rest
  induction rest with
  | nil =>
    intro pos mode start hdrop hpos hrun st len hmem
    have hlen : line.length ≤ pos := List.drop_eq_nil_iff.1 hdrop.symm
    have hpe : pos = line.length := Nat.le_antisymm hpos hlen
    cases mode with
    | false => simp [scanAux] at hmem
    | true =>
      simp only [scanAux, List.mem_singleton, Prod.mk.injEq] at hmem
      obtain ⟨hst, hln⟩ := hmem
      obtain ⟨hsp, hpre⟩ := hrun rfl
      constructor
      · omega
      · intro k hk
        exact hpre (st + k) (by omega) (by omega)
  | cons b rest' ih =>
    intro pos mode start hdrop hpos hrun st len hmem
    have hposlt : pos < line.length := by
      by_contra hge
      rw [List.drop_eq_nil_of_le (Nat.le_of_not_lt hge)] at hdrop
      exact List.cons_ne_nil _ _ hdrop
    have hhead : line.getD pos false = b := by
      have h0 : line.drop pos = b :: rest' := hdrop.symm
      have h2 : getElem? line pos = some b := by
        have h3 := List.getElem?_drop line pos 0
        rw [h0] at h3
        simpa using h3.symm
      simp [List.getD_eq_getElem?_getD, h2]
    have htail : rest' = line.drop (pos + 1) := by
      have h0 : line.drop pos = b :: rest' := hdrop.symm
      have : line.drop (pos + 1) = (line.drop pos).drop 1 := by
        rw [List.drop_drop]
      rw [this, h0]
      rfl
    cases mode with
    | false =>
      cases b with
      | false =>
        simp only [scanAux, List.mem_cons, Prod.mk.injEq] at hmem
        rcases hmem with ⟨hst, hln⟩ | hmem
        · subst hst; subst hln
          exact ⟨by omega, fun k hk => absurd hk (Nat.not_lt_zero k)⟩
        · exact ih (pos + 1) false start htail hposlt (fun h => by simp at h) st len hmem
      | true =>
        simp only [scanAux] at hmem
        refine ih (pos + 1) true pos htail hposlt ?_ st len hmem
        intro _
        refine ⟨Nat.le_succ pos, fun k hk1 hk2 => ?_⟩
        have : k = pos := by omega
        rw [this, hhead]
    | true =>
      obtain ⟨hsp, hpre⟩ := hrun rfl
      cases b with
      | false =>
        simp only [scanAux, List.mem_cons, Prod.mk.injEq] at hmem
        rcases hmem with ⟨hst, hln⟩ | hmem
        · constructor
          · omega
          · intro k hk
            exact hpre (st + k) (by omega) (by omega)
        · exact ih (pos + 1) false 0 htail hposlt (fun h => by simp at h) st len hmem
      | true =>
        simp only [scanAux] at hmem
        refine ih (pos + 1) true start htail hposlt ?_ st len hmem
        intro _
        refine ⟨Nat.le_succ_of_le hsp, fun k hk1 hk2 => ?_⟩
        rcases Nat.lt_or_ge k pos with hlt | hge
        · exact hpre k hk1 hlt
        · have : k = pos := by omega
          rw [this, hhead]

theorem scanRuns_spec (line : List Bool) (st len : Nat) (h : (st, len) ∈ scanRuns line) :
    st + len ≤ line.length ∧ ∀ k, k < len → line.getD (st + k) false = true := by
  exact scanAux_spec line line 0 false 0 rfl (Nat.zero_le _) (fun hh => by simp at hh) st len h

theorem extractSlots_wf (shape : List (List Bool)) (minLen : Nat) :
    ∀ s ∈ extractSlots shape minLen, SlotWF shape s := by
  intro s hs
  unfold extractSlots at hs
  rcases List.mem_append.1 hs with hA | hD
  · rw [List.mem_flatten] at hA
    rcases hA with ⟨grp, hgrp, hsgrp⟩
    rw [List.mem_map] at hgrp
    rcases hgrp with ⟨r, hr, hgrpeq⟩
    rw [← hgrpeq] at hsgrp
    rw [List.mem_filterMap] at hsgrp
    rcases hsgrp with ⟨⟨st, len⟩, hrun, hsome⟩
    by_cases hge : len ≥ minLen
    · simp only [hge, if_pos] at hsome
      obtain ⟨hbound, hopen⟩ := scanRuns_spec _ _ _ hrun
      have hrr : r < shape.length := by
        unfold range at hr
        exact List.mem_range.1 hr
      injection hsome with hsome
      subst hsome
      constructor
      · simp [range]
      · intro rc hrc
        simp only [range, List.mem_map, List.mem_range] at hrc
        rcases hrc with ⟨i, hi, hrceq⟩
        subst hrceq
        refine ⟨hrr, ?_, ?_⟩
        · exact getD_true_lt _ _ (hopen i hi)
        · exact hopen i hi
      · apply List.Nodup.map
        · intro a b hab
          simpa using hab
        · exact List.nodup_range _
    · simp [hge] at hsome
  · rw [List.mem_flatten] at hD
    rcases hD with ⟨grp, hgrp, hsgrp⟩
    rw [List.mem_map] at hgrp
    rcases hgrp with ⟨c, _, hgrpeq⟩
    rw [← hgrpeq] at hsgrp
    rw [List.mem_filterMap] at hsgrp
    rcases hsgrp with ⟨⟨st, len⟩, hrun, hsome⟩
    by_cases hge : len ≥ minLen
    · simp only [hge, if_pos] at hsome
      obtain ⟨hbound, hopen⟩ := scanRuns_spec _ _ _ hrun
      have hcollen : (getColumn shape c).length = shape.length := by
        simp [getColumn]
      injection hsome with hsome
      subst hsome
      constructor
      · simp [range]
      · intro rc hrc
        simp only [range, List.mem_map, List.mem_range] at hrc
        rcases hrc with ⟨i, hi, hrceq⟩
        subst hrceq
        have hrlt : st + i < shape.length := by
          rw [← hcollen]; omega
        have hcol : (getColumn shape c).getD (st + i) false =
            (shape.getD (st + i) []).getD c false := by
          unfold getColumn
          rw [getD_map_lt shape _ (st + i) false [] hrlt]
        have hopeni := hopen i hi
        rw [hcol] at hopeni
        exact ⟨hrlt, getD_true_lt _ _ hopeni, hopeni⟩
      · apply List.Nodup.map
        · intro a b hab
          simpa using hab
        · exact List.nodup_range _
    · simp [hge] at hsome

/-! ## Lemmas: the empty grid -/

theorem makeEmptyGrid_length (shape : List (List Bool)) :
    (makeEmptyGrid shape).length = shape.length := by
  simp [makeEmptyGrid]

theorem makeEmptyGrid_row_length (shape : List (List Bool)) (r : Nat) :
    ((makeEmptyGrid shape).getD r []).length = (shape.getD r []).length := by
  rcases Nat.lt_or_ge r shape.length with h | h
  · unfold makeEmptyGrid
    rw [getD_map_lt shape _ r [] [] h]
    simp
  · rw [getD_of_ge _ _ _ (by simpa [makeEmptyGrid] using h), getD_of_ge _ _ _ h]
    rfl

theorem makeEmptyGrid_getCell (shape : List (List Bool)) (r c : Nat)
    (hr : r < shape.length) (hc : c < (shape.getD r []).length) :
    getCell (makeEmptyGrid shape) r c =
      (if (shape.getD r []).getD c false = true then none else some '#') := by
  unfold getCell makeEmptyGrid
  rw [getD_map_lt shape _ r [] [] hr, getD_map_lt _ _ c (some '#') false hc]

theorem cloneGrid_id (g : Grid) : cloneGrid g = g := by
  simp [cloneGrid]

/-! ## Lemmas: undo -/

theorem undoPlacement_length (g : Grid) (chs : List Change) :
    (undoPlacement g chs).length = g.length := by
  induction chs generalizing g with
  | nil => rfl
  | cons ch rest ih =>
    show (undoPlacement (setCell g ch.r ch.c ch.prev) rest).length = g.length
    rw [ih, setCell_length]

theorem undoPlacement_row_length (g : Grid) (chs : List Change) (r : Nat) :
    ((undoPlacement g chs).getD r []).length = ((g.getD r []).length) := by
  induction chs generalizing g with
  | nil => rfl
  | cons ch rest ih =>
    show ((undoPlacement (setCell g ch.r ch.c ch.prev) rest).getD r []).length = _
    rw [ih, setCell_row_length]

theorem undoPlacement_getCell_notin (g : Grid) (chs : List Change) (r c : Nat)
    (h : ∀ ch ∈ chs, ¬ (r = ch.r ∧ c = ch.c)) :
    getCell (undoPlacement g chs) r c = getCell g r c := by
  induction chs generalizing g with
  | nil => rfl
  | cons ch rest ih =>
    show getCell (undoPlacement (setCell g ch.r ch.c ch.prev) rest) r c = _
    rw [ih _ (fun ch' h' => h ch' (List.mem_cons_of_mem _ h'))]
    exact getCell_setCell_ne _ _ _ _ _ _ (h ch (List.mem_cons_self _ _))

theorem undoPlacement_getCell_mem (g : Grid) (chs : List Change)
    (hnd : (chs.map (fun ch => (ch.r, ch.c))).Nodup)
    (hin : ∀ ch ∈ chs, ch.r < g.length ∧ ch.c < (g.getD ch.r []).length)
    (ch : Change) (hch : ch ∈ chs) :
    getCell (undoPlacement g chs) ch.r ch.c = ch.prev := by
  induction chs generalizing g with
  | nil => cases hch
  | cons ch0 rest ih =>
    show getCell (undoPlacement (setCell g ch0.r ch0.c ch0.prev) rest) ch.r ch.c = ch.prev
    rcases List.mem_cons.1 hch with hh | hh
    · subst hh
      rw [undoPlacement_getCell_notin]
      · exact getCell_setCell_self _ _ _ _ (hin ch (List.mem_cons_self _ _)).1
          (hin ch (List.mem_cons_self _ _)).2
      · intro ch' h'
        intro hcc
        have : (ch.r, ch.c) ∈ rest.map (fun ch => (ch.r, ch.c)) := by
          rw [List.mem_map]
          exact ⟨ch', h', by rw [hcc.1, hcc.2]⟩
        rw [List.map_cons] at hnd
        exact (List.nodup_cons.1 hnd).1 this
    · apply ih
      · rw [List.map_cons] at hnd
        exact (List.nodup_cons.1 hnd).2
      · intro ch' h'
        rw [setCell_length, setCell_row_length]
        exact hin ch' (List.mem_cons_of_mem _ h')
      · exact hh

/-! ## Lemmas: placement -/

theorem placeLoop_spec :
    ∀ (cells : List Coord) (w : Word) (g : Grid) (acc : List Change),
      cells.Nodup →
      (∀ rc ∈ cells, rc.1 < g.length ∧ rc.2 < (g.getD rc.1 []).length) →
      w.length = cells.length →
      matchesConstraints w (cells.map (fun rc => getCell g rc.1 rc.2)) = true →
      ∃ g' chs,
        placeLoop g cells w acc = (g', some (acc.reverse ++ chs)) ∧
        (∀ r c, ¬ ((r, c) ∈ cells ∧ getCell g r c = none) → getCell g' r c = getCell g r c) ∧
        placedAt g' cells w ∧
        (∀ ch ∈ chs, ch.prev = none ∧ (ch.r, ch.c) ∈ cells ∧ getCell g ch.r ch.c = none) ∧
        (chs.map (fun ch => (ch.r, ch.c))).Nodup ∧
        (∀ rc ∈ cells, getCell g rc.1 rc.2 = none → rc ∈ chs.map (fun ch => (ch.r, ch.c))) ∧
        g'.length = g.length ∧ (∀ r, (g'.getD r []).length = (g.getD r []).length) := by
  intro cells
  induction cells with
  | nil =>
    intro w g acc _ _ hlen _
    rw [List.length_eq_zero.1 hlen]
    refine ⟨g, [], ?_, ?_, List.Forall₂.nil, ?_, ?_, ?_, rfl, fun _ => rfl⟩
    · simp [placeLoop]
    · intro r c _; rfl
    · intro ch hch; cases hch
    · simp
    · intro rc hrc; cases hrc
  | cons rc cells' ih =>
    intro w g acc hnd hin hlen hmatch
    obtain ⟨r, c⟩ := rc
    cases w with
    | nil => simp at hlen
    | cons ch w' =>
      have hlen' : w'.length = cells'.length := by simpa using hlen
      have hndtail : cells'.Nodup := (List.nodup_cons.1 hnd).2
      have hheadnotin : (r, c) ∉ cells' := (List.nodup_cons.1 hnd).1
      rcases hcell : getCell g r c with _ | e
      · -- empty cell: write and record
        have hmatch' :
            matchesConstraints w' (cells'.map (fun rc => getCell g rc.1 rc.2)) = true := by
          simp only [List.map_cons, hcell, matchesConstraints] at hmatch
          exact hmatch
        have hrin := hin (r, c) (List.mem_cons_self _ _)
        have hmapeq : cells'.map (fun rc => getCell (setCell g r c (some ch)) rc.1 rc.2)
            = cells'.map (fun rc => getCell g rc.1 rc.2) := by
          apply List.map_congr_left
          intro rc' hrc'
          apply getCell_setCell_ne
          intro hcc
          apply hheadnotin
          have hrceq : rc' = (r, c) := by
            obtain ⟨a, b⟩ := rc'
            obtain ⟨h1, h2⟩ := hcc
            simp only at h1 h2
            rw [h1, h2]
          exact hrceq ▸ hrc'
        have hin' : ∀ rc' ∈ cells', rc'.1 < (setCell g r c (some ch)).length ∧
            rc'.2 < ((setCell g r c (some ch)).getD rc'.1 []).length := by
          intro rc' hrc'
          rw [setCell_length, setCell_row_length]
          exact hin rc' (List.mem_cons_of_mem _ hrc')
        obtain ⟨g', chs', heq, hframe, hplaced, hchs, hchnd, hcompl, hglen, hgrow⟩ :=
          ih w' (setCell g r c (some ch)) (⟨r, c, none⟩ :: acc) hndtail hin' hlen'
            (by rw [hmapeq]; exact hmatch')
        refine ⟨g', ⟨r, c, none⟩ :: chs', ?_, ?_, ?_, ?_, ?_, ?_, ?_, ?_⟩
        · simp only [placeLoop, hcell]
          rw [heq]
          simp
        · intro r' c' hnc
          have hne : ¬ (r' = r ∧ c' = c) := by
            rintro ⟨h1, h2⟩
            exact hnc ⟨by rw [h1, h2]; exact List.mem_cons_self _ _, by rw [h1, h2, hcell]⟩
          rw [hframe r' c' ?_, getCell_setCell_ne _ _ _ _ _ _ hne]
          intro ⟨hmem', hnone'⟩
          apply hnc
          refine ⟨List.mem_cons_of_mem _ hmem', ?_⟩
          rw [← hnone']
          exact (getCell_setCell_ne _ _ _ _ _ _ hne).symm
        · refine List.Forall₂.cons ?_ hplaced
          rw [hframe r c (fun hx => hheadnotin hx.1)]
          exact getCell_setCell_self _ _ _ _ hrin.1 hrin.2
        · intro ch' hch'
          rcases List.mem_cons.1 hch' with hh | hh
          · subst hh
            exact ⟨rfl, List.mem_cons_self _ _, hcell⟩
          · obtain ⟨hprev, hmem', hnone'⟩ := hchs ch' hh
            refine ⟨hprev, List.mem_cons_of_mem _ hmem', ?_⟩
            have hne : ¬ ((ch'.r, ch'.c) = (r, c)) := fun hx => hheadnotin (hx ▸ hmem')
            rw [← hnone']
            exact (getCell_setCell_ne _ _ _ _ _ _ (by
              intro hcc
              exact hne (by rw [hcc.1, hcc.2]))).symm
        · rw [List.map_cons]
          refine List.nodup_cons.2 ⟨?_, hchnd⟩
          intro hx
          rw [List.mem_map] at hx
          obtain ⟨ch', hch', hcc⟩ := hx
          have := (hchs ch' hch').2.1
          rw [hcc] at this
          exact hheadnotin this
        · intro rc' hrc' hnone'
          rcases List.mem_cons.1 hrc' with hh | hh
          · rw [hh]
            rw [List.map_cons]
            exact List.mem_cons_self _ _
          · have hne : ¬ (rc'.1 = r ∧ rc'.2 = c) := by
              rintro ⟨h1, h2⟩
              apply hheadnotin
              have : rc' = (r, c) := by
                cases rc'; simp at h1 h2 ⊢; exact ⟨h1, h2⟩
              exact this ▸ hh
            have : getCell (setCell g r c (some ch)) rc'.1 rc'.2 = none := by
              rw [getCell_setCell_ne _ _ _ _ _ _ hne]
              exact hnone'
            have hmm := hcompl rc' hh this
            rw [List.map_cons]
            exact List.mem_cons_of_mem _ hmm
        · rw [hglen, setCell_length]
        · intro r'
          rw [hgrow, setCell_row_length]
      · -- already-filled cell: must agree
        have hagree : e = ch ∧
            matchesConstraints w' (cells'.map (fun rc => getCell g rc.1 rc.2)) = true := by
          simp only [List.map_cons, hcell, matchesConstraints, Bool.and_eq_true,
            beq_iff_eq] at hmatch
          exact ⟨hmatch.1.symm, hmatch.2⟩
        have hin' : ∀ rc' ∈ cells', rc'.1 < g.length ∧ rc'.2 < ((g.getD rc'.1 []).length) :=
          fun rc' hrc' => hin rc' (List.mem_cons_of_mem _ hrc')
        obtain ⟨g', chs', heq, hframe, hplaced, hchs, hchnd, hcompl, hglen, hgrow⟩ :=
          ih w' g acc hndtail hin' hlen' hagree.2
        refine ⟨g', chs', ?_, ?_, ?_, ?_, hchnd, ?_, hglen, hgrow⟩
        · simp only [placeLoop, hcell]
          rw [if_pos (by simp [hagree.1]), heq]
        · intro r' c' hnc
          apply hframe
          intro ⟨hmem', hnone'⟩
          exact hnc ⟨List.mem_cons_of_mem _ hmem', hnone'⟩
        · refine List.Forall₂.cons ?_ hplaced
          rw [hframe r c (fun hx => by rw [hcell] at hx; cases hx.2)]
          rw [hcell, hagree.1]
        · intro ch' hch'
          obtain ⟨hprev, hmem', hnone'⟩ := hchs ch' hch'
          exact ⟨hprev, List.mem_cons_of_mem _ hmem', hnone'⟩
        · intro rc' hrc' hnone'
          rcases List.mem_cons.1 hrc' with hh | hh
          · rw [hh] at hnone'
            rw [hcell] at hnone'
            cases hnone'
          · exact hcompl rc' hh hnone'

theorem tryPlaceWord_spec (shape : List (List Bool)) (g : Grid) (slot : Slot) (w : Word)
    (hwf : SlotWF shape slot)
    (hgl : g.length = shape.length)
    (hgr : ∀ r, (g.getD r []).length = (shape.getD r []).length)
    (hlen : w.length = slot.length)
    (hmatch : matchesConstraints w (slot.cells.map (fun rc => getCell g rc.1 rc.2)) = true) :
    ∃ g' chs, tryPlaceWord g slot w = (g', some chs) ∧
      (∀ r c, ¬ ((r, c) ∈ slot.cells ∧ getCell g r c = none) → getCell g' r c = getCell g r c) ∧
      placedAt g' slot.cells w ∧
      undoPlacement g' chs = g ∧
      g'.length = g.length ∧ (∀ r, (g'.getD r []).length = (g.getD r []).length) := by
  have hin : ∀ rc ∈ slot.cells, rc.1 < g.length ∧ rc.2 < (g.getD rc.1 []).length := by
    intro rc hrc
    obtain ⟨h1, h2, _⟩ := hwf.cells_in rc hrc
    exact ⟨by rw [hgl]; exact h1, by rw [hgr]; exact h2⟩
  obtain ⟨g', chs, heq, hframe, hplaced, hchs, hchnd, hcompl, hglen, hgrow⟩ :=
    placeLoop_spec slot.cells w g [] hwf.cells_nodup hin
      (by rw [hlen, hwf.len_cells]) hmatch
  refine ⟨g', chs, ?_, hframe, hplaced, ?_, hglen, hgrow⟩
  · unfold tryPlaceWord
    rw [if_neg (by simp [hlen]), heq]
    rfl
  · -- undo restores the original grid
    apply grid_ext
    · rw [undoPlacement_length, hglen]
    · intro r _
      rw [undoPlacement_row_length, hgrow]
    · intro r c hrlt hclt
      have hrlt' : r < g.length := by rwa [undoPlacement_length, hglen] at hrlt
      have hclt' : c < (g.getD r []).length := by
        rwa [undoPlacement_row_length, hgrow] at hclt
      by_cases hrc : (r, c) ∈ chs.map (fun ch => (ch.r, ch.c))
      · rw [List.mem_map] at hrc
        obtain ⟨ch, hch, hcc⟩ := hrc
        obtain ⟨hprev, hmem, hnone⟩ := hchs ch hch
        have hrr : r = ch.r := (congrArg Prod.fst hcc).symm
        have hcc2 : c = ch.c := (congrArg Prod.snd hcc).symm
        rw [hrr, hcc2]
        rw [undoPlacement_getCell_mem g' chs hchnd ?_ ch hch]
        · rw [hprev, ← hrr, ← hcc2]
          rw [← hrr, ← hcc2] at hnone
          exact hnone.symm
        · intro ch' hch'
          obtain ⟨_, hmem', _⟩ := hchs ch' hch'
          have := hin (ch'.r, ch'.c) hmem'
          rw [hglen]
          refine ⟨this.1, ?_⟩
          rw [hgrow]
          exact this.2
      · rw [undoPlacement_getCell_notin g' chs r c ?_]
        · by_cases hcase : (r, c) ∈ slot.cells ∧ getCell g r c = none
          · exact absurd (hcompl (r, c) hcase.1 hcase.2) hrc
          · exact hframe r c hcase
        · intro ch hch hcc
          apply hrc
          rw [List.mem_map]
          exact ⟨ch, hch, by rw [hcc.1, hcc.2]⟩

/-! ## Lemmas: slot selection -/

theorem pickAux_sound (allSlots : List Slot) (assignments : AssignMap) (grid : Grid)
    (dictByLen : LenIndex) (used : WordSet) (ar : Bool) :
    ∀ (slots : List Slot) (best : Option (Slot × List Word)),
      (∀ s cs, best = some (s, cs) →
        PickedOK allSlots assignments grid dictByLen used ar s cs) →
      (∀ s ∈ slots, s ∈ allSlots) →
      ∀ s cs, pickAux assignments grid dictByLen used ar slots best = some (s, cs) →
        PickedOK allSlots assignments grid dictByLen used ar s cs := by
  intro slots
  induction slots with
  | nil => intro best hbest _ s cs h; exact hbest s cs h
  | cons slot rest ih =>
    intro best hbest hsub s cs h
    simp only [pickAux] at h
    by_cases hassigned : mapHas assignments slot.id = true
    · rw [if_pos hassigned] at h
      exact ih best hbest (fun s' hs' => hsub s' (List.mem_cons_of_mem _ hs')) s cs h
    · rw [if_neg hassigned] at h
      by_cases hzero : ((getCandidatesForSlot slot grid dictByLen).length == 0) = true
      · rw [if_pos hzero] at h
        cases h
      · rw [if_neg hzero] at h
        have hfiltOK : ∀ (filtered : List Word),
            filtered = (if ar then getCandidatesForSlot slot grid dictByLen
              else (getCandidatesForSlot slot grid dictByLen).filter
                (fun w => !setHas used w)) →
            (filtered.length == 0) = false →
            PickedOK allSlots assignments grid dictByLen used ar slot filtered := by
          intro filtered hfeq hflen
          refine ⟨hsub slot (List.mem_cons_self _ _), by simpa using hassigned, ?_, ?_⟩
          · intro hnil
            rw [hnil] at hflen
            simp at hflen
          · intro w hw
            have hwc : w ∈ getCandidatesForSlot slot grid dictByLen ∧
                (ar = false → setHas used w = false) := by
              rw [hfeq] at hw
              by_cases har : ar = true
              · rw [if_pos har] at hw
                exact ⟨hw, fun hf => absurd (hf ▸ har) (by simp)⟩
              · rw [if_neg har] at hw
                rw [List.mem_filter] at hw
                exact ⟨hw.1, fun _ => by simpa using hw.2⟩
            obtain ⟨hwcand, hwused⟩ := hwc
            unfold getCandidatesForSlot at hwcand
            rw [List.mem_filter] at hwcand
            exact ⟨hwcand.1, hwcand.2, hwused⟩
        by_cases hflen : ((if ar then getCandidatesForSlot slot grid dictByLen
            else (getCandidatesForSlot slot grid dictByLen).filter
              (fun w => !setHas used w)).length == 0) = true
        · rw [if_pos hflen] at h
          cases h
        · rw [if_neg hflen] at h
          have hok := hfiltOK _ rfl (by simpa using hflen)
          rcases best with _ | ⟨bs, bc⟩
          all_goals dsimp only at h
          · exact ih _ (fun s' cs' h' => by
              injection h' with h''
              obtain ⟨h1, h2⟩ := Prod.mk.injEq _ _ _ _ ▸ h''
              exact h1 ▸ h2 ▸ hok)
              (fun s' hs' => hsub s' (List.mem_cons_of_mem _ hs')) s cs h
          · by_cases hlt : (if ar then getCandidatesForSlot slot grid dictByLen
                else (getCandidatesForSlot slot grid dictByLen).filter
                  (fun w => !setHas used w)).length < bc.length
            · rw [if_pos hlt] at h
              exact ih _ (fun s' cs' h' => by
                injection h' with h''
                obtain ⟨h1, h2⟩ := Prod.mk.injEq _ _ _ _ ▸ h''
                exact h1 ▸ h2 ▸ hok)
                (fun s' hs' => hsub s' (List.mem_cons_of_mem _ hs')) s cs h
            · rw [if_neg hlt] at h
              exact ih _ (fun s' cs' h' => by
                injection h' with h''
                obtain ⟨h1, h2⟩ := Prod.mk.injEq _ _ _ _ ▸ h''
                exact h1 ▸ h2 ▸ hbest bs bc rfl)
                (fun s' hs' => hsub s' (List.mem_cons_of_mem _ hs')) s cs h

theorem pickNextSlot_sound (slots : List Slot) (assignments : AssignMap) (grid : Grid)
    (dictByLen : LenIndex) (used : WordSet) (ar : Bool) (slot : Slot) (cands : List Word)
    (h : pickNextSlot slots assignments grid dictByLen used ar = some (slot, cands)) :
    PickedOK slots assignments grid dictByLen used ar slot cands := by
  exact pickAux_sound slots assignments grid dictByLen used ar slots none
    (fun s cs h' => by cases h') (fun s hs => hs) slot cands h

/-! ## Lemmas: shuffling -/

theorem getD_mem {α : Type} (l : List α) (n : Nat) (d : α) (h : n < l.length) :
    l.getD n d ∈ l := by
  induction l generalizing n with
  | nil => simp at h
  | cons x xs ih =>
    cases n with
    | zero => exact List.mem_cons_self _ _
    | succ m => exact List.mem_cons_of_mem _ (ih m (Nat.lt_of_succ_lt_succ h))

theorem listSwap_length (l : List Word) (i j : Nat) :
    (listSwap l i j).length = l.length := by
  simp [listSwap]

theorem listSwap_mem (l : List Word) (i j : Nat) (hi : i < l.length) (hj : j < l.length)
    (x : Word) (hx : x ∈ listSwap l i j) : x ∈ l := by
  unfold listSwap at hx
  rcases List.mem_or_eq_of_mem_set hx with hx2 | hx2
  · rcases List.mem_or_eq_of_mem_set hx2 with hx3 | hx3
    · exact hx3
    · exact hx3 ▸ getD_mem l j [] hj
  · exact hx2 ▸ getD_mem l i [] hi

theorem fisherYatesAux_mem (rand : Nat → Nat) (hr : ∀ k, rand k ≤ k) :
    ∀ (i : Nat) (a : List Word), i < a.length → ∀ x ∈ fisherYatesAux rand i a, x ∈ a := by
  intro i
  induction i with
  | zero => intro a _ x hx; exact hx
  | succ m ih =>
    intro a hi x hx
    simp only [fisherYatesAux] at hx
    have hswlen : (listSwap a (m + 1) (rand (m + 1))).length = a.length := listSwap_length _ _ _
    have hx2 : x ∈ listSwap a (m + 1) (rand (m + 1)) := by
      apply ih _ (by rw [hswlen]; omega) x hx
    exact listSwap_mem a (m + 1) (rand (m + 1)) hi
      (Nat.lt_of_le_of_lt (hr (m + 1)) hi) x hx2

theorem shuffled_mem (rand : Nat → Nat) (hr : ∀ k, rand k ≤ k) (l : List Word) (x : Word)
    (hx : x ∈ shuffled rand l) : x ∈ l := by
  unfold shuffled at hx
  cases l with
  | nil => simpa [fisherYatesAux] using hx
  | cons y ys =>
    apply fisherYatesAux_mem rand hr ((y :: ys).length - 1) (y :: ys) ?_ x hx
    simp

/-! ## Lemmas: the search invariant -/

theorem placedAt_mono (g g' : Grid) (cells : List Coord) (w : Word)
    (hp : placedAt g cells w)
    (hframe : ∀ r c, getCell g r c ≠ none → getCell g' r c = getCell g r c) :
    placedAt g' cells w := by
  unfold placedAt at hp ⊢
  apply List.Forall₂.imp ?_ hp
  intro rc ch hrc
  rw [hframe rc.1 rc.2 (by rw [hrc]; simp)]
  exact hrc

theorem inv_of_core_eq (shape : List (List Bool)) (cfg : SearchCfg) (st st' : SearchState)
    (h : Inv shape cfg st) (hg : st'.grid = st.grid) (ha : st'.assignments = st.assignments)
    (hu : cfg.allowReuseWords = false → st'.usedWords = st.usedWords) :
    Inv shape cfg st' := by
  constructor
  · rw [hg]; exact h.dims_len
  · intro r; rw [hg]; exact h.dims_row r
  · rw [ha]; exact h.keys_nodup
  · intro p hp
    rw [ha] at hp
    obtain ⟨s, hs, hid, hlk, hpl⟩ := h.entries p hp
    exact ⟨s, hs, hid, hlk, by rw [hg]; exact hpl⟩
  · intro r c h1 h2 h3; rw [hg]; exact h.blocked r c h1 h2 h3
  · intro r c h1 h2 h3 h4; rw [hg]; exact h.uncovered r c h1 h2 h3 h4
  · intro har
    rw [ha, hu har]
    exact h.used_ok har

theorem inv_place (shape : List (List Bool)) (cfg : SearchCfg)
    (st : SearchState) (hinv : Inv shape cfg st)
    (slot : Slot) (hslot : slot ∈ cfg.slots)
    (hhas : mapHas st.assignments slot.id = false)
    (word : Word) (hlook : word ∈ (lenLookup cfg.dictByLen slot.length).getD [])
    (hskipF : cfg.allowReuseWords = false → setHas st.usedWords word = false)
    (g' : Grid)
    (hframe : ∀ r c, ¬ ((r, c) ∈ slot.cells ∧ getCell st.grid r c = none) →
      getCell g' r c = getCell st.grid r c)
    (hplaced : placedAt g' slot.cells word)
    (hglen : g'.length = st.grid.length)
    (hgrow : ∀ r, (g'.getD r []).length = (st.grid.getD r []).length) :
    Inv shape cfg { st with grid := g', assignments := mapSet st.assignments slot.id word, usedWords := setAdd st.usedWords word } := by
  have hkeysne : ∀ k ∈ st.assignments.map (fun p => p.1), k ≠ slot.id := by
    intro k hk hkk
    rw [List.mem_map] at hk
    obtain ⟨p, hp, hpk⟩ := hk
    exact (mapHas_false_iff _ _).1 hhas p hp (hpk.trans hkk ▸ rfl)
  constructor
  · show g'.length = shape.length
    rw [hglen]; exact hinv.dims_len
  · intro r
    show (g'.getD r []).length = _
    rw [hgrow]; exact hinv.dims_row r
  · show ((mapSet st.assignments slot.id word).map (fun p => p.1)).Nodup
    rw [mapSet_append _ _ _ hhas, List.map_append]
    rw [List.nodup_append]
    refine ⟨hinv.keys_nodup, List.nodup_singleton _, ?_⟩
    intro k hk hk2
    simp only [List.map_cons, List.map_nil, List.mem_singleton] at hk2
    exact hkeysne k hk hk2
  · intro p hp
    have hp' : p ∈ st.assignments ++ [(slot.id, word)] := by
      rw [← mapSet_append st.assignments slot.id word hhas]
      exact hp
    rcases List.mem_append.1 hp' with hp2 | hp2
    · obtain ⟨s, hs, hid, hlk, hpl⟩ := hinv.entries p hp2
      refine ⟨s, hs, hid, hlk, ?_⟩
      show placedAt g' s.cells p.2
      apply placedAt_mono st.grid g' _ _ hpl
      intro r c hne
      exact hframe r c (fun hx => hne hx.2)
    · rw [List.mem_singleton] at hp2
      subst hp2
      exact ⟨slot, hslot, rfl, hlook, hplaced⟩
  · intro r c h1 h2 h3
    show getCell g' r c = some '#'
    have hb := hinv.blocked r c h1 h2 h3
    rw [hframe r c (fun hx => by rw [hb] at hx; cases hx.2)]
    exact hb
  · intro r c h1 h2 h3 h4
    show getCell g' r c = none
    have hu := hinv.uncovered r c h1 h2 h3 h4
    rw [hframe r c (fun hx => h4 slot hslot hx.1)]
    exact hu
  · intro har
    obtain ⟨vnd, hiff⟩ := hinv.used_ok har
    have hnotused : setHas st.usedWords word = false := hskipF har
    have hnotval : word ∉ st.assignments.map (fun p => p.2) := by
      intro hx
      rw [← hiff word] at hx
      rw [hnotused] at hx
      cases hx
    constructor
    · show ((mapSet st.assignments slot.id word).map (fun p => p.2)).Nodup
      rw [mapSet_append _ _ _ hhas, List.map_append]
      rw [List.nodup_append]
      refine ⟨vnd, List.nodup_singleton _, ?_⟩
      intro v hv hv2
      simp only [List.map_cons, List.map_nil, List.mem_singleton] at hv2
      exact hnotval (hv2 ▸ hv)
    · intro x
      show setHas (setAdd st.usedWords word) x = true ↔
        x ∈ (mapSet st.assignments slot.id word).map (fun p => p.2)
      rw [setHas_setAdd, mapSet_append _ _ _ hhas, List.map_append, List.mem_append]
      constructor
      · rintro (hx | hx)
        · exact Or.inl ((hiff x).1 ((setHas_iff _ _).2 hx))
        · exact Or.inr (by rw [hx]; exact List.mem_singleton.2 rfl)
      · rintro (hx | hx)
        · exact Or.inl ((setHas_iff _ _).1 ((hiff x).2 hx))
        · exact Or.inr (List.mem_singleton.1 hx)

theorem tryWords_step (shape : List (List Bool)) (cfg : SearchCfg) (hwf : CfgWF shape cfg)
    (n : Nat)
    (hP : ∀ st, Inv shape cfg st → BacktrackSpec shape cfg st (backtrack n cfg st)) :
    ∀ (words : List Word) (slot : Slot) (st : SearchState), Inv shape cfg st →
      slot ∈ cfg.slots →
      mapHas st.assignments slot.id = false →
      (∀ w ∈ words, w ∈ (lenLookup cfg.dictByLen slot.length).getD [] ∧
        matchesConstraints w (slot.cells.map (fun rc => getCell st.grid rc.1 rc.2)) = true) →
      BacktrackSpec shape cfg st
        (tryWordsAux (fun s => backtrack n cfg s) cfg.allowReuseWords slot words st) := by
  intro words
  induction words with
  | nil =>
    intro slot st hinv _ _ _
    constructor
    · intro _
      exact ⟨rfl, rfl, fun _ => rfl⟩
    · intro hh
      simp only [tryWordsAux] at hh
      cases hh
  | cons word rest ih =>
    intro slot st hinv hslot hhas hwords
    obtain ⟨hlook, hmatch⟩ := hwords word (List.mem_cons_self _ _)
    have hwrest : ∀ w ∈ rest, w ∈ (lenLookup cfg.dictByLen slot.length).getD [] ∧
        matchesConstraints w (slot.cells.map (fun rc => getCell st.grid rc.1 rc.2)) = true :=
      fun w hw => hwords w (List.mem_cons_of_mem _ hw)
    simp only [tryWordsAux]
    by_cases hskip : (!cfg.allowReuseWords && setHas st.usedWords word) = true
    · rw [if_pos hskip]
      exact ih slot st hinv hslot hhas hwrest
    · rw [if_neg hskip]
      have hskipF : cfg.allowReuseWords = false → setHas st.usedWords word = false := by
        intro har
        by_contra hx
        exact hskip (by simp [har, Bool.eq_true_of_ne_false hx])
      have hlen : word.length = slot.length := hwf.dict_len slot.length word hlook
      obtain ⟨g', chs, heq, hframe, hplaced, hundo, hglen, hgrow⟩ :=
        tryPlaceWord_spec shape st.grid slot word (hwf.slots_wf slot hslot)
          hinv.dims_len hinv.dims_row hlen hmatch
      rw [heq]
      dsimp only
      have hinv1 := inv_place shape cfg st hinv slot hslot hhas word hlook hskipF g'
        hframe hplaced hglen hgrow
      rcases hres : backtrack n cfg { st with grid := g', assignments := mapSet st.assignments slot.id word, usedWords := setAdd st.usedWords word } with ⟨b, st2⟩
      cases b with
      | true =>
        have hspec := hP _ hinv1
        rw [hres] at hspec
        constructor
        · intro hh; cases hh
        · intro _
          exact hspec.2 rfl
      | false =>
        have hspec := hP _ hinv1
        rw [hres] at hspec
        obtain ⟨hg2, ha2, hu2⟩ := hspec.1 rfl
        dsimp only
        have he1 : mapDelete st2.assignments slot.id = st.assignments := by
          rw [ha2]
          show mapDelete (mapSet st.assignments slot.id word) slot.id = st.assignments
          rw [mapSet_append _ _ _ hhas, mapDelete_append_self _ _ _ hhas]
        have he2 : undoPlacement st2.grid chs = st.grid := by
          rw [hg2]
          show undoPlacement g' chs = st.grid
          exact hundo
        have he3 : cfg.allowReuseWords = false →
            (if !cfg.allowReuseWords then setDelete st2.usedWords word
             else st2.usedWords) = st.usedWords := by
          intro har
          rw [if_pos (by rw [har]; rfl)]
          rw [hu2 har]
          show setDelete (setAdd st.usedWords word) word = st.usedWords
          have hnotin : word ∉ st.usedWords := by
            rw [← setHas_false_iff]
            exact hskipF har
          rw [setAdd_append _ _ hnotin, setDelete_append_self _ _ hnotin]
        have hinv3 : Inv shape cfg { st2 with assignments := mapDelete st2.assignments slot.id, usedWords := if !cfg.allowReuseWords then setDelete st2.usedWords word else st2.usedWords, grid := undoPlacement st2.grid chs } := by
          apply inv_of_core_eq shape cfg st _ hinv
          · exact he2
          · exact he1
          · exact he3
        have hspec3 := ih slot _ hinv3 hslot (by
            show mapHas (mapDelete st2.assignments slot.id) slot.id = false
            rw [he1]; exact hhas)
          (by
            intro w hw
            show w ∈ _ ∧ matchesConstraints w
              (slot.cells.map (fun rc => getCell (undoPlacement st2.grid chs) rc.1 rc.2)) = true
            rw [he2]
            exact hwrest w hw)
        constructor
        · intro hh
          obtain ⟨hg3, ha3, hu3⟩ := hspec3.1 hh
          refine ⟨?_, ?_, ?_⟩
          · rw [hg3]; exact he2
          · rw [ha3]; exact he1
          · intro har
            rw [hu3 har]
            exact he3 har
        · intro hh
          exact hspec3.2 hh

theorem backtrack_spec (shape : List (List Bool)) (cfg : SearchCfg) (hwf : CfgWF shape cfg) :
    ∀ (n : Nat) (st : SearchState), Inv shape cfg st →
      BacktrackSpec shape cfg st (backtrack n cfg st) := by
  intro n
  induction n with
  | zero =>
    intro st hinv
    simp only [backtrack]
    exact ⟨fun _ => ⟨rfl, rfl, fun _ => rfl⟩, fun hh => nomatch hh⟩
  | succ n ih =>
    intro st hinv
    have hinvb : Inv shape cfg { st with steps := st.steps + 1 } :=
      inv_of_core_eq shape cfg st _ hinv rfl rfl (fun _ => rfl)
    simp only [backtrack]
    split
    · exact ⟨fun _ => ⟨rfl, rfl, fun _ => rfl⟩, fun hh => nomatch hh⟩
    · split
      · exact ⟨fun _ => ⟨rfl, rfl, fun _ => rfl⟩, fun hh => nomatch hh⟩
      · split
        · rename_i hcomp
          refine ⟨fun hh => (nomatch hh), fun _ => ⟨hinvb, ?_⟩⟩
          simpa using hcomp
        · split
          · exact ⟨fun _ => ⟨rfl, rfl, fun _ => rfl⟩, fun hh => nomatch hh⟩
          · rename_i slot cands hpick
            have hok := pickNextSlot_sound cfg.slots st.assignments st.grid cfg.dictByLen
              st.usedWords cfg.allowReuseWords slot cands hpick
            obtain ⟨hmem, hhas, hne, hprops⟩ := hok
            exact tryWords_step shape cfg hwf n ih _ slot _ hinvb hmem hhas (by
              intro w hw
              have hwc : w ∈ cands := by
                by_cases hrand : cfg.randomizeCandidates = true
                · rw [if_pos hrand] at hw
                  exact shuffled_mem cfg.rand hwf.rand_le cands w hw
                · rw [if_neg hrand] at hw
                  exact hw
              obtain ⟨h1, h2, _⟩ := hprops w hwc
              exact ⟨h1, h2⟩)

/-- Everything a successful `fillCrossword` outcome satisfies: the grid has the
shape's dimensions, the assignment map pairs every extracted slot with exactly
one normalized dictionary word of the slot's length written letter-by-letter
into the grid, blocked cells keep `#`, uncovered open cells stay empty, and
with reuse disallowed the assigned words are pairwise distinct. -/
theorem fill_ok_spec (shape : List (List Bool)) (dictionary : List Word)
    (options : CrosswordFillOptions) (rand : Nat → Nat)
    (onProgress : Option (Nat → Grid → Bool)) (hrand : ∀ i, rand i ≤ i)
    (g : Grid) (a : AssignMap) (steps : Nat)
    (hok : fillCrossword shape dictionary options rand onProgress = FillOutcome.ok g a steps) :
    (g.length = shape.length ∧ ∀ r, (g.getD r []).length = (shape.getD r []).length) ∧
    ((extractSlots shape options.minWordLength).map (fun s => s.id)).Nodup ∧
    (a.map (fun p => p.1)).Nodup ∧
    a.length = (extractSlots shape options.minWordLength).length ∧
    (∀ slot ∈ extractSlots shape options.minWordLength, ∃ w,
      mapGet a slot.id = some w ∧ w.length = slot.length ∧ w.length = slot.cells.length ∧
      w ∈ normalizeDictionary dictionary ∧ w.all isUpperAlpha = true ∧
      placedAt g slot.cells w) ∧
    (∀ r c, r < shape.length → c < (shape.getD r []).length →
      (shape.getD r []).getD c false = false → getCell g r c = some '#') ∧
    (∀ r c, r < shape.length → c < (shape.getD r []).length →
      (shape.getD r []).getD c false = true →
      (∀ s ∈ extractSlots shape options.minWordLength, (r, c) ∉ s.cells) →
      getCell g r c = none) ∧
    (options.allowReuseWords = false → (a.map (fun p => p.2)).Nodup) := by
  simp only [fillCrossword] at hok
  by_cases h0 : (shape.length == 0) = true
  · rw [if_pos h0] at hok; cases hok
  rw [if_neg h0] at hok
  by_cases h1 : (!isRect shape) = true
  · rw [if_pos h1] at hok; cases hok
  rw [if_neg h1] at hok
  by_cases h2 : ((extractSlots shape options.minWordLength).length == 0) = true
  · rw [if_pos h2] at hok; cases hok
  rw [if_neg h2] at hok
  set slots := extractSlots shape options.minWordLength with hslots
  set cfg : SearchCfg :=
    { slots := slots, dictByLen := (buildDictionaryIndex dictionary).wordsByLength,
      allowReuseWords := options.allowReuseWords,
      randomizeCandidates := options.randomizeCandidates,
      maxSteps := options.maxSteps, rand := rand, onProgress := onProgress } with hcfg
  set st0 : SearchState :=
    { grid := makeEmptyGrid shape, assignments := [], usedWords := [],
      steps := 0, maybeFailureReason := none } with hst0
  have hwfCfg : CfgWF shape cfg := by
    constructor
    · intro s hs
      exact extractSlots_wf shape options.minWordLength s hs
    · intro n w hw
      exact (lenLookup_indexByLength (normalizeDictionary dictionary) n w hw).2
    · exact hrand
  have hinv0 : Inv shape cfg st0 := by
    constructor
    · exact makeEmptyGrid_length shape
    · exact makeEmptyGrid_row_length shape
    · exact List.nodup_nil
    · intro p hp; cases hp
    · intro r c hr hc hb
      rw [makeEmptyGrid_getCell shape r c hr hc, hb]
      rfl
    · intro r c hr hc ho _
      rw [makeEmptyGrid_getCell shape r c hr hc, ho]
      rfl
    · intro _
      refine ⟨List.nodup_nil, fun w => ?_⟩
      constructor
      · intro hx; cases hx
      · intro hx; cases hx
  rcases hbt : backtrack (slots.length + 1) cfg st0 with ⟨b, st⟩
  rw [hbt] at hok
  cases b with
  | false => cases hok
  | true =>
    have hspec := backtrack_spec shape cfg hwfCfg (slots.length + 1) st0 hinv0
    rw [hbt] at hspec
    obtain ⟨hinv, hcount⟩ := hspec.2 rfl
    dsimp only at hok hinv hcount
    rw [cloneGrid_id] at hok
    injection hok with hg ha hsteps
    subst hg; subst ha
    -- key permutation: assignment keys are exactly the slot ids
    have hkeysub : st.assignments.map (fun p => p.1) ⊆ slots.map (fun s => s.id) := by
      intro k hk
      rw [List.mem_map] at hk
      obtain ⟨p, hp, hpk⟩ := hk
      obtain ⟨s, hs, hid, _, _⟩ := hinv.entries p hp
      rw [List.mem_map]
      exact ⟨s, hs, hid.trans hpk⟩
    have hlens : (slots.map (fun s => s.id)).length ≤
        (st.assignments.map (fun p => p.1)).length := by
      rw [List.length_map, List.length_map, hcount]
    have hperm : (st.assignments.map (fun p => p.1)).Perm (slots.map (fun s => s.id)) :=
      (List.subperm_of_subset hinv.keys_nodup hkeysub).perm_of_length_le hlens
    have hidsnodup : (slots.map (fun s => s.id)).Nodup :=
      (hperm.nodup_iff).1 hinv.keys_nodup
    refine ⟨⟨hinv.dims_len, hinv.dims_row⟩, hidsnodup, hinv.keys_nodup, hcount, ?_, hinv.blocked,
      hinv.uncovered, fun har => (hinv.used_ok har).1⟩
    intro slot hslot
    have hkey : slot.id ∈ st.assignments.map (fun p => p.1) := by
      rw [hperm.mem_iff, List.mem_map]
      exact ⟨slot, hslot, rfl⟩
    obtain ⟨w, hwget⟩ := mapGet_isSome_of_key st.assignments slot.id hkey
    have hwmem : (slot.id, w) ∈ st.assignments := mapGet_eq_some_mem _ _ _ hwget
    obtain ⟨s', hs', hid', hlk', hpl'⟩ := hinv.entries (slot.id, w) hwmem
    have hseq : s' = slot :=
      List.inj_on_of_nodup_map hidsnodup hs' hslot hid'
    subst hseq
    have hnorm := lenLookup_indexByLength (normalizeDictionary dictionary) s'.length w hlk'
    refine ⟨w, hwget, hnorm.2, ?_, hnorm.1, (mem_normalizeDictionary _ _ hnorm.1).2, hpl'⟩
    rw [hnorm.2, (extractSlots_wf shape options.minWordLength s' hslot).len_cells]

/-! ## Helpers for reading `placedAt` -/

theorem forall₂_mem_left {α β : Type} {R : α → β → Prop} :
    ∀ {l1 : List α} {l2 : List β}, List.Forall₂ R l1 l2 → ∀ a ∈ l1, ∃ b, b ∈ l2 ∧ R a b := by
  intro l1 l2 h
  induction h with
  | nil => intro a ha; cases ha
  | cons hR _ ih =>
    intro a ha
    rcases List.mem_cons.1 ha with hh | hh
    · exact ⟨_, List.mem_cons_self _ _, hh ▸ hR⟩
    · obtain ⟨b, hb, hab⟩ := ih a hh
      exact ⟨b, List.mem_cons_of_mem _ hb, hab⟩

theorem forall₂_get? {α β : Type} {R : α → β → Prop} :
    ∀ {l1 : List α} {l2 : List β}, List.Forall₂ R l1 l2 →
      ∀ i a, l1.get? i = some a → ∃ b, l2.get? i = some b ∧ R a b := by
  intro l1 l2 h
  induction h with
  | nil => intro i a ha; cases ha
  | cons hR _ ih =>
    intro i a ha
    cases i with
    | zero =>
      simp only [List.get?] at ha
      injection ha with ha
      exact ⟨_, rfl, ha ▸ hR⟩
    | succ j => exact ih j a ha

/-! ## Claim C2 -/

/-- Claim C2 (counterexample): on `exShapeOrphan` — a rectangular shape whose
open cell (2,2) lies in no extracted slot — the solve succeeds, but that open
cell of the returned grid holds the empty string, not a single A–Z letter. -/
theorem fill_success_open_cell_not_letter_cex :
    (exShapeOrphan.getD 2 []).getD 2 false = true ∧
    fillCrossword exShapeOrphan [['A', 'B']] exOptsNoRand zeroRand none =
      FillOutcome.ok exGridOrphan [(⟨Dir.across, 0, 0⟩, ['A', 'B'])] 2 ∧
    getCell exGridOrphan 2 2 = none := by
  refine ⟨by decide, by decide, by decide⟩

/-- Claim C2 (amended): for every rectangular shape and successful solve
outcome, every open cell covered by some extracted slot holds a single
uppercase A–Z letter, open cells covered by no slot remain empty (the orphan
case), every blocked cell holds `#`, and the assignment map contains exactly
one entry per extracted slot (distinct keys, one lookup hit per slot id, as
many entries as slots) whose word length equals that slot's cell count. -/
theorem fill_success_postcondition (shape : List (List Bool)) (dictionary : List Word)
    (options : CrosswordFillOptions) (rand : Nat → Nat)
    (onProgress : Option (Nat → Grid → Bool)) (hrand : ∀ i, rand i ≤ i)
    (g : Grid) (a : AssignMap) (steps : Nat)
    (hok : fillCrossword shape dictionary options rand onProgress = FillOutcome.ok g a steps) :
    (g.length = shape.length ∧ ∀ r, (g.getD r []).length = (shape.getD r []).length) ∧
    (∀ slot ∈ extractSlots shape options.minWordLength, ∀ rc ∈ slot.cells,
      ∃ ch, getCell g rc.1 rc.2 = some ch ∧ isUpperAlpha ch = true) ∧
    (∀ r c, r < shape.length → c < (shape.getD r []).length →
      (shape.getD r []).getD c false = true →
      (∀ s ∈ extractSlots shape options.minWordLength, (r, c) ∉ s.cells) →
      getCell g r c = none) ∧
    (∀ r c, r < shape.length → c < (shape.getD r []).length →
      (shape.getD r []).getD c false = false → getCell g r c = some '#') ∧
    (a.map (fun p => p.1)).Nodup ∧
    a.length = (extractSlots shape options.minWordLength).length ∧
    (∀ slot ∈ extractSlots shape options.minWordLength, ∃ w,
      mapGet a slot.id = some w ∧ w.length = slot.cells.length) := by
  obtain ⟨hdims, _, hkeysnd, hcount, hslots, hblocked, huncov, _⟩ :=
    fill_ok_spec shape dictionary options rand onProgress hrand g a steps hok
  refine ⟨hdims, ?_, huncov, hblocked, hkeysnd, hcount, ?_⟩
  · intro slot hslot rc hrc
    obtain ⟨w, _, _, _, _, hupper, hplaced⟩ := hslots slot hslot
    obtain ⟨ch, hch, hcell⟩ := forall₂_mem_left hplaced rc hrc
    exact ⟨ch, hcell, by
      rw [List.all_eq_true] at hupper
      exact hupper ch hch⟩
  · intro slot hslot
    obtain ⟨w, hget, _, hlen, _, _, _⟩ := hslots slot hslot
    exact ⟨w, hget, hlen⟩

/-- Claim C2 (witness): the 2×2 all-open instance satisfies the
postcondition's hypotheses and yields the word square AB/CD. -/
theorem fill_success_postcondition_witness :
    (∀ i, zeroRand i ≤ i) ∧
    exAssignSquare.length = (extractSlots exShape2x2 exOptsNoRand.minWordLength).length := by
  refine ⟨fun i => Nat.zero_le i, ?_⟩
  exact (fill_success_postcondition exShape2x2 exDictSquare exOptsNoRand zeroRand none
    (fun i => Nat.zero_le i) exGridSquare exAssignSquare 5 (by decide)).2.2.2.2.2.1

/-! ## Claim C8 -/

/-- Claim C8: intersection consistency — in every successful solve outcome,
whenever two extracted slots' cell sequences share a cell (position `i` of the
first slot equals position `j` of the second), the assigned words carry the
same letter at those positions. -/
theorem intersection_consistency (shape : List (List Bool)) (dictionary : List Word)
    (options : CrosswordFillOptions) (rand : Nat → Nat)
    (onProgress : Option (Nat → Grid → Bool)) (hrand : ∀ i, rand i ≤ i)
    (g : Grid) (a : AssignMap) (steps : Nat)
    (hok : fillCrossword shape dictionary options rand onProgress = FillOutcome.ok g a steps)
    (s1 s2 : Slot) (hs1 : s1 ∈ extractSlots shape options.minWordLength)
    (hs2 : s2 ∈ extractSlots shape options.minWordLength)
    (i j : Nat) (rc : Coord) (hc1 : s1.cells.get? i = some rc)
    (hc2 : s2.cells.get? j = some rc)
    (w1 w2 : Word) (hw1 : mapGet a s1.id = some w1) (hw2 : mapGet a s2.id = some w2) :
    w1.get? i = w2.get? j ∧ ∃ ch, w1.get? i = some ch := by
  obtain ⟨_, _, _, _, hslots, _, _, _⟩ :=
    fill_ok_spec shape dictionary options rand onProgress hrand g a steps hok
  obtain ⟨v1, hv1, _, _, _, _, hp1⟩ := hslots s1 hs1
  obtain ⟨v2, hv2, _, _, _, _, hp2⟩ := hslots s2 hs2
  have he1 : v1 = w1 := Option.some_inj.1 (hv1.symm.trans hw1)
  have he2 : v2 = w2 := Option.some_inj.1 (hv2.symm.trans hw2)
  subst he1; subst he2
  obtain ⟨ch1, hch1, hcell1⟩ := forall₂_get? hp1 i rc hc1
  obtain ⟨ch2, hch2, hcell2⟩ := forall₂_get? hp2 j rc hc2
  have : ch1 = ch2 := Option.some_inj.1 (hcell1.symm.trans hcell2)
  subst this
  exact ⟨hch1.trans hch2.symm, ch1, hch1⟩

/-- Claim C8 (witness): in the 2×2 word square, the across slot `A:0:0` and
the down slot `D:0:0` share cell (0,0), and both assigned words carry `A`
there. -/
theorem intersection_consistency_witness :
    (['A', 'B'] : Word).get? 0 = (['A', 'C'] : Word).get? 0 ∧
    ∃ ch, (['A', 'B'] : Word).get? 0 = some ch :=
  intersection_consistency exShape2x2 exDictSquare exOptsNoRand zeroRand none
    (fun i => Nat.zero_le i) exGridSquare exAssignSquare 5 (by decide)
    ⟨⟨Dir.across, 0, 0⟩, Dir.across, [(0, 0), (0, 1)], 2⟩
    ⟨⟨Dir.down, 0, 0⟩, Dir.down, [(0, 0), (1, 0)], 2⟩
    (by decide) (by decide) 0 0 (0, 0) (by decide) (by decide)
    ['A', 'B'] ['A', 'C'] (by decide) (by decide)

/-! ## Claim C9 -/

/-- Claim C9: reuse constraint — with `allow_reuse_words = false`, the words
in a successful outcome's assignment map are pairwise distinct (the proof goes
through the invariant `Inv`, which maintains this distinctness, together with
`usedWords` bookkeeping, at every recursive entry of the search). -/
theorem reuse_words_distinct (shape : List (List Bool)) (dictionary : List Word)
    (options : CrosswordFillOptions) (rand : Nat → Nat)
    (onProgress : Option (Nat → Grid → Bool)) (hrand : ∀ i, rand i ≤ i)
    (har : options.allowReuseWords = false)
    (g : Grid) (a : AssignMap) (steps : Nat)
    (hok : fillCrossword shape dictionary options rand onProgress = FillOutcome.ok g a steps) :
    (a.map (fun p => p.2)).Nodup := by
  obtain ⟨_, _, _, _, _, _, _, hval⟩ :=
    fill_ok_spec shape dictionary options rand onProgress hrand g a steps hok
  exact hval har

/-- Claim C9 (witness): the four words of the 2×2 word square are pairwise
distinct. -/
theorem reuse_words_distinct_witness :
    (exAssignSquare.map (fun p => p.2)).Nodup :=
  reuse_words_distinct exShape2x2 exDictSquare exOptsNoRand zeroRand none
    (fun i => Nat.zero_le i) rfl exGridSquare exAssignSquare 5 (by decide)

/-! ## Claim C1 -/

theorem placeLoop_frame :
    ∀ (cells : List Coord) (w : Word) (g : Grid) (acc : List Change) (r c : Nat),
      getCell (placeLoop g cells w acc).1 r c ≠ getCell g r c →
      (r, c) ∈ cells ∧ getCell g r c = none := by
  intro cells
  induction cells with
  | nil =>
    intro w g acc r c hne
    simp only [placeLoop] at hne
    exact absurd rfl hne
  | cons rc0 cells' ih =>
    intro w g acc r c hne
    obtain ⟨r0, c0⟩ := rc0
    cases w with
    | nil =>
      simp only [placeLoop] at hne
      exact absurd rfl hne
    | cons ch w' =>
      rcases hcell : getCell g r0 c0 with _ | e
      · simp only [placeLoop, hcell] at hne
        by_cases hrc : r = r0 ∧ c = c0
        · refine ⟨by rw [hrc.1, hrc.2]; exact List.mem_cons_self _ _, ?_⟩
          rw [hrc.1, hrc.2, hcell]
        · have hstep : getCell (setCell g r0 c0 (some ch)) r c = getCell g r c :=
            getCell_setCell_ne _ _ _ _ _ _ hrc
          have hne' : getCell
              (placeLoop (setCell g r0 c0 (some ch)) cells' w' (⟨r0, c0, none⟩ :: acc)).1 r c ≠
              getCell (setCell g r0 c0 (some ch)) r c := by
            rw [hstep]; exact hne
          obtain ⟨hmem, hnone⟩ := ih w' _ _ r c hne'
          rw [hstep] at hnone
          exact ⟨List.mem_cons_of_mem _ hmem, hnone⟩
      · simp only [placeLoop, hcell] at hne
        by_cases hagree : (e == ch) = true
        · rw [if_pos hagree] at hne
          obtain ⟨hmem, hnone⟩ := ih w' g acc r c hne
          exact ⟨List.mem_cons_of_mem _ hmem, hnone⟩
        · rw [if_neg hagree] at hne
          exact absurd rfl hne

/-- Claim C1 (counterexample): with the working grid reached on `exShapePlus`
after the across slot holds `ABC` (a legitimate mid-search state), attempting
the length-correct word `XYZ` in the extracted down slot `D:0:1` is rejected —
cell (1,1) holds `B` ≠ `Y` — yet the attempt's first step already wrote `X`
into the previously-empty cell (0,1), and that write survives: the grid after
the rejected attempt differs from the grid before it. -/
theorem tryPlaceWord_not_atomic_cex :
    exSlotDown ∈ extractSlots exShapePlus 2 ∧
    (tryPlaceWord exGridMid exSlotDown ['X', 'Y', 'Z']).2 = none ∧
    (tryPlaceWord exGridMid exSlotDown ['X', 'Y', 'Z']).1 =
      [[some '#', some 'X', some '#'], [some 'A', some 'B', some 'C'],
       [some '#', none, some '#']] ∧
    (tryPlaceWord exGridMid exSlotDown ['X', 'Y', 'Z']).1 ≠ exGridMid := by
  refine ⟨by decide, by decide, by decide, by decide⟩

/-- Claim C1 (amended): a rejected placement caused by a word-length mismatch
writes nothing, and a rejected placement caused by a disagreeing filled cell
leaves every already-filled cell and every cell off the slot's path unchanged:
any cell the rejected attempt changed was previously empty and lies on the
slot's path (the partial writes before the disagreement are what survive; the
caller does not undo them). -/
theorem tryPlaceWord_reject_frame (grid : Grid) (slot : Slot) (word : Word)
    (hrej : (tryPlaceWord grid slot word).2 = none) :
    (word.length ≠ slot.length → (tryPlaceWord grid slot word).1 = grid) ∧
    (∀ r c, getCell (tryPlaceWord grid slot word).1 r c ≠ getCell grid r c →
      (r, c) ∈ slot.cells ∧ getCell grid r c = none) := by
  constructor
  · intro hne
    unfold tryPlaceWord
    rw [if_pos (by simpa using hne)]
  · intro r c hne
    unfold tryPlaceWord at hne
    by_cases hlen : (word.length != slot.length) = true
    · rw [if_pos hlen] at hne
      exact absurd rfl hne
    · rw [if_neg hlen] at hne
      exact placeLoop_frame slot.cells word grid [] r c hne

/-- Claim C1 (amended, witness): the rejected `XYZ` attempt of the
counterexample instance satisfies the frame property. -/
theorem tryPlaceWord_reject_frame_witness :
    (tryPlaceWord exGridMid exSlotDown ['X', 'Y', 'Z']).2 = none ∧
    (((['X', 'Y', 'Z'] : Word).length ≠ exSlotDown.length →
      (tryPlaceWord exGridMid exSlotDown ['X', 'Y', 'Z']).1 = exGridMid) ∧
     (∀ r c, getCell (tryPlaceWord exGridMid exSlotDown ['X', 'Y', 'Z']).1 r c ≠
        getCell exGridMid r c →
      (r, c) ∈ exSlotDown.cells ∧ getCell exGridMid r c = none)) :=
  ⟨by decide, tryPlaceWord_reject_frame exGridMid exSlotDown ['X', 'Y', 'Z'] (by decide)⟩

/-! ## Claim C4 -/

set_option maxRecDepth 10000 in
/-- Claim C4: evaluating the solver on `exShapeSix` (six independent
length-2 slots, five words, so the search is deep) with `max_steps = 150` and
a progress callback that always refuses shows the cancellation bug: the final
step count 156 exceeds the progress interval 100, so the callback was invoked
at step 100 and refused, yet the search did not abort there — it ran on past
the budget and the outcome carries the step-budget reason, not the
cancellation reason the claim (and the spec's "abort the search immediately")
requires. -/
theorem cancellation_not_honored :
    fillCrossword exShapeSix exDictFive
      { randomizeCandidates := false, maxSteps := 150 } zeroRand (some refuseCb) =
      FillOutcome.fail (FailReason.maxStepsExceeded 150) 156 ∧
    progressInterval = 100 ∧ 100 < 156 ∧ (∀ s g, refuseCb s g = false) ∧
    FailReason.maxStepsExceeded 150 ≠ FailReason.cancelled := by
  exact ⟨by decide, rfl, by decide, fun _ _ => rfl, by decide⟩

/-! ## Claim C7 -/

/-- Claim C7: the analyzer counts candidate words with multiplicity, not
unique words, contradicting the claim (and its own message text).  With the
dictionary `[AB, AB]` — one unique word of length 2 — and `exShapeTwoRows` —
two disjoint slots of length 2 — under `allow_reuse_words = false`, the
analyzer reports no `not_enough_unique_words_for_length` error and even
declares the shape valid (its only issue is the disconnected-components
warning), although the solver then fails by search exhaustion exactly because
only one unique word exists for two slots. -/
theorem duplicate_words_not_detected :
    ((normalizeDictionary exDictDup).dedup.filter (fun w => w.length == 2)).length = 1 ∧
    countSlotsByLength (extractSlots exShapeTwoRows 2) = [(2, 2)] ∧
    analyzeCrosswordShape exShapeTwoRows (buildDictionaryIndex exDictDup) 2 false =
      { isValid := true,
        issues := [⟨IssueCode.disconnected_components, Severity.warning,
          IssueDetail.disconnectedDetail 2⟩],
        slotCount := 2 } ∧
    fillCrossword exShapeTwoRows exDictDup exOptsNoRand zeroRand none =
      FillOutcome.fail (FailReason.noSolutionFound 3) 3 := by
  refine ⟨by decide, by decide, by decide, by decide⟩

/-! ## Claim C5 -/

/-- With `max_steps = 1`, every candidate tried by the first (and only
reachable) selection costs one further step that immediately trips the budget,
so the loop walks all of them: the final state counts one step per candidate
on top of the entry step count, with the step-budget failure reason. -/
theorem tryWordsAux_budget (shape : List (List Bool)) (cfg : SearchCfg)
    (hmax : cfg.maxSteps = 1) (f : Nat)
    (slot : Slot) (hslotwf : SlotWF shape slot)
    (hdict : ∀ w, w ∈ (lenLookup cfg.dictByLen slot.length).getD [] → w.length = slot.length)
    (g0 : Grid) (hg0l : g0.length = shape.length)
    (hg0r : ∀ r, (g0.getD r []).length = (shape.getD r []).length) :
    ∀ (ws : List Word) (st : SearchState),
      st.grid = g0 → st.assignments = [] → 1 ≤ st.steps →
      (cfg.allowReuseWords = false → st.usedWords = []) →
      (∀ w ∈ ws, w ∈ (lenLookup cfg.dictByLen slot.length).getD [] ∧
        matchesConstraints w (slot.cells.map (fun rc => getCell g0 rc.1 rc.2)) = true) →
      ∃ st', tryWordsAux (fun s => backtrack (f + 1) cfg s) cfg.allowReuseWords slot ws st =
          (false, st') ∧
        st'.steps = st.steps + ws.length ∧
        st'.maybeFailureReason = (if ws.length = 0 then st.maybeFailureReason
          else some (FailReason.maxStepsExceeded cfg.maxSteps)) := by
  intro ws
  induction ws with
  | nil =>
    intro st _ _ _ _ _
    exact ⟨st, rfl, by simp, by simp⟩
  | cons word ws' ih =>
    rintro ⟨stg, sta, stu, stst, strr⟩ hgrid hassign hsteps hused hws
    dsimp only at hgrid hassign hsteps hused
    subst hgrid; subst hassign
    obtain ⟨hlook, hmatch⟩ := hws word (List.mem_cons_self _ _)
    have hskip : (!cfg.allowReuseWords && setHas stu word) = false := by
      rcases hbool : cfg.allowReuseWords with _ | _
      · rw [hused hbool]
        simp [setHas]
      · simp [hbool]
    simp only [tryWordsAux, hskip, Bool.false_eq_true, if_false]
    obtain ⟨g', chs, heq, hframe, hplaced, hundo, hglen, hgrow⟩ :=
      tryPlaceWord_spec shape _ slot word hslotwf hg0l hg0r (hdict word hlook) hmatch
    rw [heq]
    dsimp only
    have hcond : stst + 1 > cfg.maxSteps := by rw [hmax]; omega
    simp only [backtrack]
    rw [if_pos (show ({ grid := g', assignments := mapSet [] slot.id word, usedWords := setAdd stu word, steps := stst, maybeFailureReason := strr } : SearchState).steps + 1 > cfg.maxSteps from hcond)]
    dsimp only
    have hdel : mapDelete (mapSet ([] : AssignMap) slot.id word) slot.id = [] := by
      rw [mapSet_append [] slot.id word rfl, mapDelete_append_self [] slot.id word rfl]
    have husedrest : cfg.allowReuseWords = false →
        (if !cfg.allowReuseWords then setDelete (setAdd stu word) word
         else setAdd stu word) = [] := by
      intro har
      rw [if_pos (by rw [har]; rfl)]
      rw [hused har]
      have hnotin : word ∉ ([] : WordSet) := List.not_mem_nil word
      rw [setAdd_append _ _ hnotin, setDelete_append_self _ _ hnotin]
    obtain ⟨st', heq', hsteps', hreason'⟩ := ih
      { grid := undoPlacement g' chs, assignments := mapDelete (mapSet [] slot.id word) slot.id, usedWords := if !cfg.allowReuseWords then setDelete (setAdd stu word) word else setAdd stu word, steps := stst + 1, maybeFailureReason := some (FailReason.maxStepsExceeded cfg.maxSteps) }
      (by dsimp only; rw [hundo]) (by dsimp only; rw [hdel]) (Nat.succ_le_succ (Nat.zero_le stst))
      (by intro har; dsimp only; exact husedrest har)
      (fun w hw => hws w (List.mem_cons_of_mem _ hw))
    refine ⟨st', ?_, ?_, ?_⟩
    · rw [← heq']
      rfl
    · rw [hsteps']
      show stst + 1 + ws'.length = stst + (word :: ws').length
      simp only [List.length_cons]
      omega
    · rw [hreason']
      rw [if_neg (show ¬((word :: ws').length = 0) by simp)]
      by_cases hz : ws'.length = 0
      · rw [if_pos hz]
      · rw [if_neg hz]

/-- Claim C5 (counterexample): on the 1×2 shape whose single slot has two
candidates, `max_steps = 1` yields the step-budget failure with step count 3
(one initialization step plus one budget-tripping recursive check per
candidate), not the claimed step count of exactly 2. -/
theorem maxsteps_one_steps_not_two_cex :
    fillCrossword exShapeRow2 [['A', 'B'], ['C', 'D']]
      { randomizeCandidates := false, maxSteps := 1 } zeroRand none =
      FillOutcome.fail (FailReason.maxStepsExceeded 1) 3 ∧ (3 : Nat) ≠ 2 := by
  exact ⟨by decide, by decide⟩

/-- Claim C5 (amended): with `max_steps = 1` (randomization off, no progress
callback) on a shape passing the structural checks whose first slot selection
returns candidates, the solve fails with the step-budget reason and step count
`1 + k` where `k` is that candidate count — the initialization step plus one
budget-tripping recursive check per candidate tried (so exactly 2 when the
selected slot has a single candidate). -/
theorem maxsteps_one_budget (shape : List (List Bool)) (dictionary : List Word)
    (mL : Nat) (ar : Bool) (rand : Nat → Nat)
    (hne : shape ≠ []) (hrect : isRect shape = true)
    (hslots : extractSlots shape mL ≠ [])
    (slot : Slot) (cands : List Word)
    (hpick : pickNextSlot (extractSlots shape mL) [] (makeEmptyGrid shape)
      (buildDictionaryIndex dictionary).wordsByLength [] ar = some (slot, cands)) :
    fillCrossword shape dictionary
      { minWordLength := mL, allowReuseWords := ar, randomizeCandidates := false, maxSteps := 1 }
      rand none = FillOutcome.fail (FailReason.maxStepsExceeded 1) (1 + cands.length) := by
  simp only [fillCrossword]
  rw [if_neg (by simp [hne]), if_neg (by simp [hrect]),
    if_neg (by simp [List.length_eq_zero, hslots])]
  set slots := extractSlots shape mL with hslotsdef
  set cfg : SearchCfg :=
    { slots := slots, dictByLen := (buildDictionaryIndex dictionary).wordsByLength,
      allowReuseWords := ar, randomizeCandidates := false,
      maxSteps := 1, rand := rand, onProgress := none } with hcfg
  have hfuel : slots.length + 1 = (slots.length - 1 + 1) + 1 := by
    have : slots.length ≠ 0 := by simpa [List.length_eq_zero] using hslots
    omega
  rw [hfuel]
  simp only [backtrack]
  rw [if_neg (show ¬ (({ grid := makeEmptyGrid shape, assignments := [], usedWords := [], steps := 0, maybeFailureReason := none } : SearchState).steps + 1 > cfg.maxSteps) by simp)]
  rw [if_neg (show ¬ ((List.length ([] : AssignMap) == cfg.slots.length) = true) by
    have hz : slots.length ≠ 0 := fun h => hslots (List.length_eq_zero.1 h)
    simp only [List.length_nil, beq_iff_eq]
    exact fun h => hz h.symm)]
  rw [hpick]
  dsimp only
  obtain ⟨hmem, _, hnonempty, hprops⟩ := pickNextSlot_sound slots [] (makeEmptyGrid shape)
    (buildDictionaryIndex dictionary).wordsByLength [] ar slot cands hpick
  obtain ⟨st', heq', hsteps', hreason'⟩ := tryWordsAux_budget shape cfg rfl
    (slots.length - 1) slot (extractSlots_wf shape mL slot hmem)
    (fun w hw => (lenLookup_indexByLength (normalizeDictionary dictionary) slot.length w hw).2)
    (makeEmptyGrid shape) (makeEmptyGrid_length shape) (makeEmptyGrid_row_length shape)
    cands
    { grid := makeEmptyGrid shape, assignments := [], usedWords := [], steps := 1, maybeFailureReason := none }
    rfl rfl (Nat.le_refl 1) (fun _ => rfl)
    (fun w hw => ⟨(hprops w hw).1, (hprops w hw).2.1⟩)
  rw [if_neg (show ¬(false = true) by simp)]
  rw [if_neg (show ¬(false = true) by simp)]
  simp only [Nat.zero_add]
  simp only [backtrack] at heq'
  rw [heq']
  dsimp only
  rw [hreason', if_neg (by simpa [List.length_eq_zero] using hnonempty)]
  dsimp only
  rw [hsteps']
  rfl

/-- Claim C5 (amended, witness): 1×2 shape, one candidate: step count 2. -/
theorem maxsteps_one_budget_witness :
    exShapeRow2 ≠ [] ∧
    fillCrossword exShapeRow2 [['A', 'B']]
      { minWordLength := 2, allowReuseWords := false, randomizeCandidates := false,
        maxSteps := 1 } zeroRand none =
      FillOutcome.fail (FailReason.maxStepsExceeded 1) 2 :=
  ⟨by decide, maxsteps_one_budget exShapeRow2 [['A', 'B']] 2 false zeroRand (by decide)
    (by decide) (by decide)
    ⟨⟨Dir.across, 0, 0⟩, Dir.across, [(0, 0), (0, 1)], 2⟩ [['A', 'B']] (by decide)⟩

/-! ### C3: empty-input and all-blocked handling -/

theorem allFalse_getD (l : List Bool) (c : Nat) (h : ∀ b ∈ l, b = false) :
    l.getD c false = false := by
  induction l generalizing c with
  | nil => cases c <;> rfl
  | cons x xs ih =>
    cases c with
    | zero => exact h x (List.mem_cons_self _ _)
    | succ n => exact ih n (fun b hb => h b (List.mem_cons_of_mem _ hb))

theorem allFalse_row (shape : List (List Bool))
    (h : ∀ row ∈ shape, ∀ b ∈ row, b = false) (r : Nat) :
    ∀ b ∈ shape.getD r [], b = false := by
  induction shape generalizing r with
  | nil =>
    intro b hb
    cases r <;> simp [List.getD] at hb
  | cons row rest ih =>
    cases r with
    | zero => exact h row (List.mem_cons_self _ _)
    | succ n => exact ih (fun rr hr => h rr (List.mem_cons_of_mem _ hr)) n

theorem getColumn_allFalse (shape : List (List Bool)) (c : Nat)
    (h : ∀ row ∈ shape, ∀ b ∈ row, b = false) :
    ∀ b ∈ getColumn shape c, b = false := by
  intro b hb
  obtain ⟨row, hrow, hbe⟩ := List.mem_map.1 hb
  rw [← hbe]
  exact allFalse_getD row c (h row hrow)

theorem scanAux_allFalse (line : List Bool) :
    ∀ s pos, (∀ b ∈ line, b = false) →
    ∀ sr ∈ scanAux false s pos line, sr.2 = 0 := by
  induction line with
  | nil =>
    intro s pos _ sr hsr
    simp [scanAux] at hsr
  | cons b rest ih =>
    intro s pos h sr hsr
    have hb : b = false := h b (List.mem_cons_self _ _)
    subst hb
    simp only [scanAux] at hsr
    rcases List.mem_cons.1 hsr with h1 | h2
    · rw [h1]
    · exact ih s (pos + 1) (fun x hx => h x (List.mem_cons_of_mem _ hx)) sr h2

theorem extractSlots_allBlocked (shape : List (List Bool)) (mL : Nat)
    (hmL : 1 ≤ mL) (h : ∀ row ∈ shape, ∀ b ∈ row, b = false) :
    extractSlots shape mL = [] := by
  simp only [extractSlots]
  rw [List.append_eq_nil]
  constructor
  · rw [List.flatten_eq_nil_iff]
    intro L hL
    obtain ⟨r, _, hLe⟩ := List.mem_map.1 hL
    rw [← hLe, List.filterMap_eq_nil]
    intro sr hsr
    have hz : sr.2 = 0 := scanAux_allFalse (shape.getD r []) 0 0 (allFalse_row shape h r) sr hsr
    rw [if_neg (by omega)]
  · rw [List.flatten_eq_nil_iff]
    intro L hL
    obtain ⟨c, _, hLe⟩ := List.mem_map.1 hL
    rw [← hLe, List.filterMap_eq_nil]
    intro sr hsr
    have hz : sr.2 = 0 := scanAux_allFalse (getColumn shape c) 0 0 (getColumn_allFalse shape c h) sr hsr
    rw [if_neg (by omega)]

theorem countOrphanCells_allBlocked (shape : List (List Bool)) (slots : List Slot)
    (h : ∀ row ∈ shape, ∀ b ∈ row, b = false) :
    countOrphanCells shape slots = 0 := by
  simp only [countOrphanCells, List.length_eq_zero, List.flatten_eq_nil_iff]
  intro L hL
  obtain ⟨r, _, hLe⟩ := List.mem_map.1 hL
  rw [← hLe, List.filter_eq_nil]
  intro c _
  rw [allFalse_getD (shape.getD r []) c (allFalse_row shape h r)]
  simp

theorem foldl_id {α β : Type} (l : List β) (f : α → β → α) (a : α)
    (h : ∀ acc : α, ∀ x ∈ l, f acc x = acc) : l.foldl f a = a := by
  induction l generalizing a with
  | nil => rfl
  | cons x xs ih =>
    rw [List.foldl_cons, h a x (List.mem_cons_self _ _)]
    exact ih a (fun acc y hy => h acc y (List.mem_cons_of_mem _ hy))

theorem countConnectedComponents_allBlocked (shape : List (List Bool))
    (h : ∀ row ∈ shape, ∀ b ∈ row, b = false) :
    countConnectedComponents shape = 0 := by
  simp only [countConnectedComponents]
  rw [foldl_id]
  intro acc r _
  rw [foldl_id]
  intro acc' c _
  rw [allFalse_getD (shape.getD r []) c (allFalse_row shape h r)]
  rfl

/-- Claim C3 (counterexample): a 1x1 all-blocked shape has zero open cells,
yet `fillCrossword` reports `noValidSlots` (not `emptyShape`) and the
analyzer's only issue code is `no_slots` (not `empty_shape`): the
empty-shape report is reserved for the zero-rows case. -/
theorem allblocked_not_empty_shape_cex :
    [[false]] ≠ ([] : List (List Bool)) ∧
    (∀ row ∈ [[false]], ∀ b ∈ row, b = false) ∧
    fillCrossword [[false]] [] {} zeroRand none =
      FillOutcome.fail (FailReason.noValidSlots 2) 0 ∧
    FailReason.noValidSlots 2 ≠ FailReason.emptyShape ∧
    (analyzeCrosswordShape [[false]] (buildDictionaryIndex []) 2 false).issues.map
      (fun i => i.code) = [IssueCode.no_slots] ∧
    IssueCode.no_slots ≠ IssueCode.empty_shape := by
  refine ⟨by decide, by decide, by decide, by decide, by decide, by decide⟩

/-- Claim C3 (amended): with a positive minimum word length, a shape with
zero rows makes both the solver and the analyzer report the empty-shape
error immediately (0 steps, no search); a NONEMPTY rectangular shape whose
cells are all blocked instead makes the solver fail with `noValidSlots` and
the analyzer report the `no_slots` error — still without running the search
(0 steps), but under a different code than the claimed `empty_shape`. -/
theorem empty_input_handling (shape : List (List Bool)) (dictionary : List Word)
    (options : CrosswordFillOptions) (rand : Nat → Nat)
    (onProgress : Option (Nat → Grid → Bool)) (dIdx : DictionaryIndex)
    (mWL : Nat) (aw : Bool)
    (hminS : 1 ≤ options.minWordLength) (hminA : 1 ≤ mWL)
    (hblocked : ∀ row ∈ shape, ∀ b ∈ row, b = false) :
    (shape = [] →
      fillCrossword shape dictionary options rand onProgress =
        FillOutcome.fail FailReason.emptyShape 0 ∧
      analyzeCrosswordShape shape dIdx mWL aw =
        { isValid := false,
          issues := [⟨IssueCode.empty_shape, Severity.error, IssueDetail.plain⟩],
          slotCount := 0 }) ∧
    (shape ≠ [] → isRect shape = true →
      fillCrossword shape dictionary options rand onProgress =
        FillOutcome.fail (FailReason.noValidSlots options.minWordLength) 0 ∧
      analyzeCrosswordShape shape dIdx mWL aw =
        { isValid := false,
          issues := [⟨IssueCode.no_slots, Severity.error, IssueDetail.noSlotsDetail mWL⟩],
          slotCount := 0 }) := by
  constructor
  · intro he
    subst he
    exact ⟨rfl, rfl⟩
  · intro hne hrect
    have hE : extractSlots shape options.minWordLength = [] :=
      extractSlots_allBlocked shape options.minWordLength hminS hblocked
    have hE' : extractSlots shape mWL = [] :=
      extractSlots_allBlocked shape mWL hminA hblocked
    have hO : countOrphanCells shape [] = 0 :=
      countOrphanCells_allBlocked shape [] hblocked
    have hC : countConnectedComponents shape = 0 :=
      countConnectedComponents_allBlocked shape hblocked
    constructor
    · simp only [fillCrossword]
      rw [if_neg (by simp [List.length_eq_zero, hne]), if_neg (by simp [hrect]), hE]
      rfl
    · simp only [analyzeCrosswordShape]
      rw [if_neg (by simp [List.length_eq_zero, hne]), if_neg (by simp [hrect]), hE']
      simp [hO, hC, countSlotsByLength]

/-- Claim C3 (amended, witness): the 1x1 all-blocked shape with default
options exercises the nonempty all-blocked branch. -/
theorem empty_input_handling_witness :
    1 ≤ ({} : CrosswordFillOptions).minWordLength ∧ (1 : Nat) ≤ 2 ∧
    (∀ row ∈ [[false]], ∀ b ∈ row, b = false) ∧
    [[false]] ≠ ([] : List (List Bool)) ∧ isRect [[false]] = true ∧
    (fillCrossword [[false]] [] {} zeroRand none =
       FillOutcome.fail (FailReason.noValidSlots ({} : CrosswordFillOptions).minWordLength) 0 ∧
     analyzeCrosswordShape [[false]] (buildDictionaryIndex []) 2 false =
       { isValid := false,
         issues := [⟨IssueCode.no_slots, Severity.error, IssueDetail.noSlotsDetail 2⟩],
         slotCount := 0 }) :=
  ⟨by decide, by decide, by decide, by decide, by decide,
   (empty_input_handling [[false]] [] {} zeroRand none (buildDictionaryIndex []) 2 false
     (by decide) (by decide) (by decide)).2 (by decide) (by decide)⟩

/-! ### C6: determinism when randomization is off -/

theorem tryWordsAux_congr (recur1 recur2 : SearchState → Bool × SearchState)
    (hr : ∀ s, recur1 s = recur2 s) (arw : Bool) (slot : Slot) :
    ∀ ws st, tryWordsAux recur1 arw slot ws st = tryWordsAux recur2 arw slot ws st := by
  intro ws
  induction ws with
  | nil => intro st; rfl
  | cons word rest ih =>
    intro st
    simp only [tryWordsAux]
    split
    · exact ih st
    · rcases hp : tryPlaceWord st.grid slot word with ⟨grid1, ch⟩
      cases ch with
      | none => exact ih _
      | some changes =>
        dsimp only
        rw [hr { st with grid := grid1, assignments := mapSet st.assignments slot.id word, usedWords := setAdd st.usedWords word }]
        rcases hrec : recur2 { st with grid := grid1, assignments := mapSet st.assignments slot.id word, usedWords := setAdd st.usedWords word } with ⟨b, st2⟩
        cases b with
        | true => rfl
        | false => exact ih _

theorem backtrack_rand_irrel (cfg1 cfg2 : SearchCfg)
    (hs : cfg1.slots = cfg2.slots) (hd : cfg1.dictByLen = cfg2.dictByLen)
    (ha : cfg1.allowReuseWords = cfg2.allowReuseWords)
    (hr1 : cfg1.randomizeCandidates = false) (hr2 : cfg2.randomizeCandidates = false)
    (hm : cfg1.maxSteps = cfg2.maxSteps) (hp : cfg1.onProgress = cfg2.onProgress) :
    ∀ fuel st, backtrack fuel cfg1 st = backtrack fuel cfg2 st := by
  intro fuel
  induction fuel with
  | zero => intro st; rfl
  | succ n ih =>
    intro st
    simp only [backtrack]
    simp only [hs, hd, ha, hm, hp, hr1, hr2, Bool.false_eq_true, if_false]
    split
    · rfl
    · split
      · rfl
      · split
        · rfl
        · split
          · rfl
          · exact tryWordsAux_congr _ _ (fun s => ih s) _ _ _ _

/-- Claim C6: with `randomize_candidates = false` the random source is never
consulted, so two solve calls on the same shape, dictionary and options (but
arbitrary, possibly different random oracles) return identical outcomes —
same grid, same assignment map, same step count, same failure reason. -/
theorem determinism_without_randomization (shape : List (List Bool))
    (dictionary : List Word) (options : CrosswordFillOptions)
    (rand1 rand2 : Nat → Nat) (onProgress : Option (Nat → Grid → Bool))
    (h : options.randomizeCandidates = false) :
    fillCrossword shape dictionary options rand1 onProgress =
      fillCrossword shape dictionary options rand2 onProgress := by
  simp only [fillCrossword]
  split
  · rfl
  · split
    · rfl
    · split
      · rfl
      · have hb := backtrack_rand_irrel
          ⟨extractSlots shape options.minWordLength,
           (buildDictionaryIndex dictionary).wordsByLength,
           options.allowReuseWords, options.randomizeCandidates,
           options.maxSteps, rand1, onProgress⟩
          ⟨extractSlots shape options.minWordLength,
           (buildDictionaryIndex dictionary).wordsByLength,
           options.allowReuseWords, options.randomizeCandidates,
           options.maxSteps, rand2, onProgress⟩
          rfl rfl rfl h h rfl rfl
        rw [hb]

/-- Claim C6 (witness): the 2x2 block with randomization off solves
identically under two different random oracles. -/
theorem determinism_without_randomization_witness :
    exOptsNoRand.randomizeCandidates = false ∧
    fillCrossword exShape2x2 exDictSquare exOptsNoRand zeroRand none =
      fillCrossword exShape2x2 exDictSquare exOptsNoRand identRand none :=
  ⟨by decide, determinism_without_randomization exShape2x2 exDictSquare exOptsNoRand
    zeroRand identRand none (by decide)⟩

/-! ### C10: the frame property of the heap-passing model -/

theorem hget_set_ne {α : Type} (l : List α) (i j : Nat) (v : α) (h : i ≠ j) :
    (l.set j v).get? i = l.get? i := by
  induction l generalizing i j with
  | nil => rfl
  | cons x xs ih =>
    cases j with
    | zero =>
      cases i with
      | zero => exact absurd rfl h
      | succ n => rfl
    | succ m =>
      cases i with
      | zero => rfl
      | succ n => exact ih n m (fun he => h (by rw [he]))

theorem hget_append {α : Type} (l l' : List α) (i : Nat) (h : i < l.length) :
    (l ++ l').get? i = l.get? i := by
  induction l generalizing i with
  | nil => simp at h
  | cons x xs ih =>
    cases i with
    | zero => rfl
    | succ n => exact ih n (Nat.lt_of_succ_lt_succ h)

theorem writesOnly_refl (refs : List Nat) (h : Heap) : WritesOnly refs h h :=
  fun _ _ => rfl

theorem writesOnly_trans {refs : List Nat} {h1 h2 h3 : Heap}
    (a : WritesOnly refs h1 h2) (b : WritesOnly refs h2 h3) : WritesOnly refs h1 h3 :=
  fun i hi => (b i hi).trans (a i hi)

theorem writeCellH_writesOnly (h : Heap) (gridRefs : List Nat) (r c : Nat) (v : Cell)
    (hr : r < gridRefs.length) : WritesOnly gridRefs h (writeCellH h gridRefs r c v) := by
  intro i hi
  have hmem : gridRefs.getD r 0 ∈ gridRefs := getD_mem gridRefs r 0 hr
  exact hget_set_ne h i (gridRefs.getD r 0) _ (fun he => hi (he ▸ hmem))

theorem placeLoopH_frame (gridRefs : List Nat) :
    ∀ (cells : List Coord) (w : Word) (h : Heap) (acc : List Change),
      (∀ rc ∈ cells, rc.1 < gridRefs.length) →
      (∀ ch ∈ acc, ch.r < gridRefs.length) →
      WritesOnly gridRefs h (placeLoopH gridRefs h cells w acc).1 ∧
      (∀ res, (placeLoopH gridRefs h cells w acc).2 = some res →
        ∀ ch ∈ res, ch.r < gridRefs.length) := by
  intro cells
  induction cells with
  | nil =>
    intro w h acc _ haccb
    refine ⟨writesOnly_refl _ _, ?_⟩
    intro res hres ch hch
    simp only [placeLoopH, Option.some.injEq] at hres
    rw [← hres] at hch
    exact haccb ch (List.mem_reverse.1 hch)
  | cons rc cells ih =>
    rcases rc with ⟨r, c⟩
    intro w h acc hcb haccb
    cases w with
    | nil => exact ⟨writesOnly_refl _ _, fun res hres => by simp [placeLoopH] at hres⟩
    | cons ch wrest =>
      simp only [placeLoopH]
      have hrlt : r < gridRefs.length := hcb (r, c) (List.mem_cons_self _ _)
      have hcb' : ∀ rc ∈ cells, rc.1 < gridRefs.length :=
        fun rc hrc => hcb rc (List.mem_cons_of_mem _ hrc)
      rcases hcell : (readStrRow h (gridRefs.getD r 0)).getD c (some '#') with _ | e
      · refine ⟨?_, ?_⟩
        · exact writesOnly_trans (writeCellH_writesOnly h gridRefs r c (some ch) hrlt)
            (ih wrest (writeCellH h gridRefs r c (some ch)) (⟨r, c, none⟩ :: acc) hcb'
              (by intro x hx; rcases List.mem_cons.1 hx with h1 | h2
                  · rw [h1]; exact hrlt
                  · exact haccb x h2)).1
        · exact (ih wrest (writeCellH h gridRefs r c (some ch)) (⟨r, c, none⟩ :: acc) hcb'
            (by intro x hx; rcases List.mem_cons.1 hx with h1 | h2
                · rw [h1]; exact hrlt
                · exact haccb x h2)).2
      · dsimp only
        by_cases he : (e == ch) = true
        · rw [if_pos he]
          exact ih wrest h acc hcb' haccb
        · rw [if_neg he]
          exact ⟨writesOnly_refl _ _, fun res hres => by simp at hres⟩

theorem tryPlaceWordH_frame (h : Heap) (gridRefs : List Nat) (slot : Slot) (word : Word)
    (hc : ∀ rc ∈ slot.cells, rc.1 < gridRefs.length) :
    WritesOnly gridRefs h (tryPlaceWordH h gridRefs slot word).1 ∧
    (∀ res, (tryPlaceWordH h gridRefs slot word).2 = some res →
      ∀ ch ∈ res, ch.r < gridRefs.length) := by
  unfold tryPlaceWordH
  split
  · exact ⟨writesOnly_refl _ _, fun res hres => by simp at hres⟩
  · exact placeLoopH_frame gridRefs slot.cells word h [] hc (by intro x hx; simp at hx)

theorem undoPlacementH_frame (gridRefs : List Nat) :
    ∀ (changes : List Change) (h : Heap),
      (∀ ch ∈ changes, ch.r < gridRefs.length) →
      WritesOnly gridRefs h (undoPlacementH h gridRefs changes) := by
  intro changes
  induction changes with
  | nil => intro h _; exact writesOnly_refl _ _
  | cons ch rest ih =>
    intro h hb
    exact writesOnly_trans
      (writeCellH_writesOnly h gridRefs ch.r ch.c ch.prev (hb ch (List.mem_cons_self _ _)))
      (ih (writeCellH h gridRefs ch.r ch.c ch.prev) (fun x hx => hb x (List.mem_cons_of_mem _ hx)))

theorem tryWordsAuxH_frame (recur : HSearchState → Bool × HSearchState)
    (arw : Bool) (gridRefs : List Nat) (slot : Slot)
    (hc : ∀ rc ∈ slot.cells, rc.1 < gridRefs.length)
    (hrec : ∀ s, WritesOnly gridRefs s.heap ((recur s).2).heap) :
    ∀ ws st, WritesOnly gridRefs st.heap (((tryWordsAuxH recur arw gridRefs slot ws st).2).heap) := by
  intro ws
  induction ws with
  | nil => intro st; exact writesOnly_refl _ _
  | cons word rest ih =>
    intro st
    simp only [tryWordsAuxH]
    split
    · exact ih st
    · obtain ⟨hfr, hchb⟩ := tryPlaceWordH_frame st.heap gridRefs slot word hc
      rcases hp : tryPlaceWordH st.heap gridRefs slot word with ⟨heap1, ch⟩
      rw [hp] at hfr hchb
      cases ch with
      | none => exact writesOnly_trans hfr (ih _)
      | some changes =>
        dsimp only
        rcases hr2 : recur { st with heap := heap1, assignments := mapSet st.assignments slot.id word, usedWords := setAdd st.usedWords word } with ⟨b, st2⟩
        have hrecfr := hrec { st with heap := heap1, assignments := mapSet st.assignments slot.id word, usedWords := setAdd st.usedWords word }
        rw [hr2] at hrecfr
        cases b with
        | true => exact writesOnly_trans hfr hrecfr
        | false =>
          have hchanges : ∀ x ∈ changes, x.r < gridRefs.length := hchb changes rfl
          exact writesOnly_trans hfr (writesOnly_trans hrecfr
            (writesOnly_trans (undoPlacementH_frame gridRefs changes st2.heap hchanges) (ih _)))

theorem backtrackH_frame (gridRefs : List Nat) (cfg : SearchCfg)
    (hslots : ∀ s ∈ cfg.slots, ∀ rc ∈ s.cells, rc.1 < gridRefs.length) :
    ∀ fuel st, WritesOnly gridRefs st.heap (((backtrackH gridRefs fuel cfg st).2).heap) := by
  intro fuel
  induction fuel with
  | zero => intro st; exact writesOnly_refl _ _
  | succ n ih =>
    intro st
    simp only [backtrackH]
    split
    · exact writesOnly_refl _ _
    · split
      · exact writesOnly_refl _ _
      · split
        · exact writesOnly_refl _ _
        · split
          · exact writesOnly_refl _ _
          · rename_i slot candidates hpick
            have hmem := (pickNextSlot_sound cfg.slots st.assignments
              (readGridH st.heap gridRefs) cfg.dictByLen st.usedWords cfg.allowReuseWords
              slot candidates hpick).1
            exact tryWordsAuxH_frame _ cfg.allowReuseWords gridRefs slot
              (hslots slot hmem) (fun s => ih s) _ _

theorem foldl_heap_grow (f : Heap × List Nat → Nat → Heap × List Nat)
    (hf : ∀ acc x, ∃ cell, f acc x = (acc.1 ++ [cell], acc.2 ++ [acc.1.length])) :
    ∀ (l : List Nat) (h : Heap) (rs : List Nat),
      (∀ i, i < h.length → (l.foldl f (h, rs)).1.get? i = h.get? i) ∧
      h.length ≤ (l.foldl f (h, rs)).1.length ∧
      (∀ r ∈ (l.foldl f (h, rs)).2, r ∈ rs ∨ h.length ≤ r) ∧
      (l.foldl f (h, rs)).2.length = rs.length + l.length := by
  intro l
  induction l with
  | nil =>
    intro h rs
    exact ⟨fun i _ => rfl, Nat.le_refl _, fun r hr => Or.inl hr, rfl⟩
  | cons x xs ih =>
    intro h rs
    obtain ⟨cell, hcell⟩ := hf (h, rs) x
    rw [List.foldl_cons, hcell]
    dsimp only
    obtain ⟨ih1, ih2, ih3, ih4⟩ := ih (h ++ [cell]) (rs ++ [h.length])
    refine ⟨?_, ?_, ?_, ?_⟩
    · intro i hi
      rw [ih1 i (by rw [List.length_append]; omega)]
      exact hget_append h [cell] i hi
    · calc h.length ≤ (h ++ [cell]).length := by rw [List.length_append]; omega
        _ ≤ _ := ih2
    · intro r hr
      rcases ih3 r hr with hin | hge
      · rcases List.mem_append.1 hin with h1 | h2
        · exact Or.inl h1
        · right
          have : r = h.length := List.mem_singleton.1 h2
          omega
      · right
        rw [List.length_append] at hge
        omega
    · rw [ih4]
      simp only [List.length_append, List.length_cons, List.length_nil]
      omega

/-- Claim C10: in the heap-passing model of the source (JS arrays as heap
cells addressed by references), a full `fillCrossword` run leaves every
caller-owned heap cell — in particular the shape rows and the dictionary
array — exactly as it found it: the solver only ever writes through the grid
row references it freshly allocated.  The analyzer returns its heap
untouched: it is a pure read-only transform. -/
theorem fillCrosswordH_frame (h0 : Heap) (shapeRefs : List Nat) (dictRef : Nat)
    (options : CrosswordFillOptions) (rand : Nat → Nat)
    (onProgress : Option (Nat → Grid → Bool)) (mWL : Nat) (aw : Bool) :
    AgreesBelow h0 (fillCrosswordH h0 shapeRefs dictRef options rand onProgress).2 ∧
    (analyzeCrosswordShapeH h0 shapeRefs dictRef mWL aw).2 = h0 := by
  refine ⟨?_, rfl⟩
  simp only [fillCrosswordH]
  split
  · intro i _; rfl
  · split
    · intro i _; rfl
    · split
      · intro i _; rfl
      · have hmk : (∀ i, i < h0.length → (makeEmptyGridH h0 shapeRefs).1.get? i = h0.get? i) ∧
            h0.length ≤ (makeEmptyGridH h0 shapeRefs).1.length ∧
            (∀ r ∈ (makeEmptyGridH h0 shapeRefs).2, r ∈ ([] : List Nat) ∨ h0.length ≤ r) ∧
            (makeEmptyGridH h0 shapeRefs).2.length = List.length ([] : List Nat) + shapeRefs.length :=
          foldl_heap_grow _ (fun acc x => ⟨_, rfl⟩) shapeRefs h0 []
        have hreflen : (makeEmptyGridH h0 shapeRefs).2.length = shapeRefs.length := by
          rw [hmk.2.2.2]
          simp
        have hslots : ∀ s ∈ extractSlots (readShapeH h0 shapeRefs) options.minWordLength,
            ∀ rc ∈ s.cells, rc.1 < (makeEmptyGridH h0 shapeRefs).2.length := by
          intro s hs rc hrc
          have hwf := extractSlots_wf (readShapeH h0 shapeRefs) options.minWordLength s hs
          have h1 := (hwf.cells_in rc hrc).1
          rw [hreflen]
          calc rc.1 < (readShapeH h0 shapeRefs).length := h1
            _ = shapeRefs.length := List.length_map _ _
        have hframe := backtrackH_frame (makeEmptyGridH h0 shapeRefs).2
          { slots := extractSlots (readShapeH h0 shapeRefs) options.minWordLength,
            dictByLen := (buildDictionaryIndex (readWordArr h0 dictRef)).wordsByLength,
            allowReuseWords := options.allowReuseWords,
            randomizeCandidates := options.randomizeCandidates,
            maxSteps := options.maxSteps, rand := rand, onProgress := onProgress }
          hslots ((extractSlots (readShapeH h0 shapeRefs) options.minWordLength).length + 1)
          { heap := (makeEmptyGridH h0 shapeRefs).1, assignments := [], usedWords := [],
            steps := 0, maybeFailureReason := none }
        intro i hi
        have hnot : i ∉ (makeEmptyGridH h0 shapeRefs).2 := by
          intro hmem2
          rcases hmk.2.2.1 i hmem2 with hin | hge
          · exact absurd hin (List.not_mem_nil i)
          · omega
        have hframe2 := hframe i hnot
        dsimp only at hframe2
        rcases hbt : backtrackH (makeEmptyGridH h0 shapeRefs).2
            ((extractSlots (readShapeH h0 shapeRefs) options.minWordLength).length + 1)
            { slots := extractSlots (readShapeH h0 shapeRefs) options.minWordLength,
              dictByLen := (buildDictionaryIndex (readWordArr h0 dictRef)).wordsByLength,
              allowReuseWords := options.allowReuseWords,
              randomizeCandidates := options.randomizeCandidates,
              maxSteps := options.maxSteps, rand := rand, onProgress := onProgress }
            { heap := (makeEmptyGridH h0 shapeRefs).1, assignments := [], usedWords := [],
              steps := 0, maybeFailureReason := none } with ⟨b, st⟩
        rw [hbt] at hframe2
        cases b with
        | true =>
          dsimp only
          rw [hframe2]
          exact hmk.1 i hi
        | false =>
          dsimp only
          rw [hframe2]
          exact hmk.1 i hi

end WordWeave
